import Mathlib

/-!
# Pixel buffers of `Framework` (`src/texture.h`, `src/texture.cpp`)

A shallow embedding of `TextureImage` and of the operations on it.

Modelling conventions.

* A byte (`unsigned char`) is a `Fin 256`.
* The heap array behind `mData` is a `List Byte`; `mData` itself is an
  `Option (List Byte)`, `none` being `nullptr`.
* Every access to an array is checked: a read or a write outside the array
  (undefined behaviour in C++) makes the operation return `none`.  An
  operation that returns `some r` therefore ran without leaving its arrays.
* `int` values that are sizes, coordinates or offsets into an array are
  mathematical integers (`Int`); C++ `/` and `%` are `Int.tdiv` and
  `Int.tmod` (truncation toward zero), a division by zero returns `none`.
  The pixel accumulator `sum` of `shrink` is not bounded by the size of any
  array, so it is kept as a 32-bit two's-complement value (`wrapInt`).
  The arguments of `alignedPitch`, of the constructor and of `copyFrom` are not bounded by
  an array either: `alignedPitchInt`, `ctorInt` and `copyFromInt` evaluate these members in
  32-bit arithmetic, and `alignedPitchInt_eq`, `ctorInt_eq` and `copyFromInt_eq` show where
  the two evaluations agree.
* `for (int i = 0; i < n; i++)` is `forLoop n`, which runs the body for
  `i = 0, 1, ..., n - 1` and stops at the first failure.
* The decoders and the graphics library are outside the program: a decoded image is an
  argument, the contents of an array fresh from `new[]` are an arbitrary function `uninit`,
  and the calls of `glTexImage2D` are collected in a list.
* Floating-point expressions are not computed: `int(log2(w))` is the exact floor of the
  logarithm, and the sample coordinates of `resample` are a parameter.
-/

namespace Framework

/-! ## Machine values -/

/-- An `unsigned char`. -/
abbrev Byte := Fin 256

/-- Largest value of a 32-bit `int`. -/
def INT_MAX : Int := 2147483647

/-- Reduction of an integer to the 32-bit two's-complement range. -/
def wrapInt (v : Int) : Int := (v + 2147483648) % 4294967296 - 2147483648

/-- The conversion `static_cast<unsigned char>(v)`. -/
def toUChar (v : Int) : Byte := ⟨(v % 256).toNat, by omega⟩

/-- C++ integer division: truncates toward zero, undefined for a zero divisor. -/
def cdiv (a b : Int) : Option Int := if b = 0 then none else some (Int.tdiv a b)

/-! ## Checked memory -/

/-- Read of `p[idx]`; `none` for a null pointer or an index outside the array. -/
def readByte (p : Option (List Byte)) (idx : Int) : Option Byte :=
  match p with
  | none => none
  | some l => if 0 ≤ idx then l[idx.toNat]? else none

/-- Write `p[idx] = v`; `none` for an index outside the array. -/
def writeByte (l : List Byte) (idx : Int) (v : Byte) : Option (List Byte) :=
  if 0 ≤ idx ∧ idx < l.length then some (l.set idx.toNat v) else none

/-- The call `memcpy(dst + doff, src + soff, n)`; `none` when either range leaves its array. -/
def memcpy (dst : List Byte) (doff : Int) (src : List Byte) (soff : Int) (n : Int) :
    Option (List Byte) :=
  if 0 ≤ doff ∧ 0 ≤ soff ∧ 0 ≤ n ∧ doff + n ≤ dst.length ∧ soff + n ≤ src.length then
    some (dst.take doff.toNat ++ ((src.drop soff.toNat).take n.toNat
      ++ dst.drop (doff + n).toNat))
  else none

/-- Auxiliary recursion of `forLoop`: `fuel` iterations starting at index `i`. -/
def forLoopAux {σ : Type} (body : Int → σ → Option σ) : Nat → Int → σ → Option σ
  | 0, _, s => some s
  | fuel + 1, i, s =>
    match body i s with
    | none => none
    | some s' => forLoopAux body fuel (i + 1) s'

/-- The loop `for (int i = 0; i < n; i++) body`. -/
def forLoop {σ : Type} (n : Int) (body : Int → σ → Option σ) (s : σ) : Option σ :=
  forLoopAux body n.toNat 0 s

/-! ## `TextureImage` -/

/-- The class `TextureImage` (`texture.h`), with its default member initialisers. -/
structure TextureImage where
  mWidth : Int := 0
  mHeight : Int := 0
  mBytesPerPixel : Int := 0
  mPitch : Int := 0
  mData : Option (List Byte) := none
  deriving DecidableEq

namespace TextureImage

/-- The static member `alignedPitch(pitch, align)`; callers pass `align ≠ 0`.  The sum is
formed in mathematical integers; `alignedPitchInt` is the evaluation in `int` arithmetic. -/
def alignedPitch (pitch : Int) (align : Int := 4) : Int :=
  if Int.tmod pitch align = 0 then pitch
  else pitch + align - Int.tmod pitch align

/-- The constructor `TextureImage(width, height, bytesPerPixel)`: a zero-filled array of
`mHeight * mPitch` bytes; `new[]` with a negative length does not return.  The products are
formed in mathematical integers; `ctorInt` is the evaluation in `int` arithmetic. -/
def ctor (width height bytesPerPixel : Int) : Option TextureImage :=
  let pitch := alignedPitch (width * bytesPerPixel)
  if height * pitch < 0 then none
  else some
    { mWidth := width, mHeight := height, mBytesPerPixel := bytesPerPixel, mPitch := pitch,
      mData := some (List.replicate (height * pitch).toNat 0) }

/-- The accessor `color(x, y, c)`: `mData[y * mPitch + x * mBytesPerPixel + c]`. -/
def color (self : TextureImage) (x y c : Int) : Option Byte :=
  readByte self.mData (y * self.mPitch + x * self.mBytesPerPixel + c)

/-- The member `empty()`. -/
def empty (self : TextureImage) : Bool :=
  self.mWidth == 0 || self.mHeight == 0 || self.mBytesPerPixel == 0

/-- The member `copyFrom(src, x, y, srcx, srcy)`; the result is the new state of `*this`.
`src` is an object distinct from `*this`.  The offsets are clipped in mathematical integers;
`copyFromInt` is the evaluation in `int` arithmetic. -/
def copyFrom (self src : TextureImage) (x y srcx srcy : Int) : Option TextureImage :=
  if src.mBytesPerPixel ≠ self.mBytesPerPixel then some self
  else
    let (srcx, x) := if x < 0 then (srcx - x, 0) else (srcx, x)
    let (srcy, y) := if y < 0 then (srcy - y, 0) else (srcy, y)
    let (x, srcx) := if srcx < 0 then (x - srcx, 0) else (x, srcx)
    let (y, srcy) := if srcy < 0 then (y - srcy, 0) else (y, srcy)
    let width := min (self.mWidth - x) (src.mWidth - srcx)
    let height := min (self.mHeight - y) (src.mHeight - srcy)
    if width ≤ 0 ∨ height ≤ 0 then some self
    else
      match self.mData, src.mData with
      | some d, some s =>
        match forLoop height (fun i d =>
            memcpy d ((i + y) * self.mPitch + x * self.mBytesPerPixel)
              s ((i + srcy) * src.mPitch + srcx * src.mBytesPerPixel)
              (width * self.mBytesPerPixel)) d with
        | some d' => some { self with mData := some d' }
        | none => none
      | _, _ => none

/-- The member `convert(bytesPerPixel)`. -/
def convert (self : TextureImage) (bytesPerPixel : Int) : Option TextureImage := do
  let res ← ctor self.mWidth self.mHeight bytesPerPixel
  let d0 ← res.mData
  let d ← forLoop self.mHeight (fun i d =>
    forLoop self.mWidth (fun j d => do
      let p := i * res.mPitch + j * res.mBytesPerPixel
      let pSrc := i * self.mPitch + j * self.mBytesPerPixel
      let (r, g, b, a) ←
        if self.mBytesPerPixel = 4 then do
          let r ← readByte self.mData (pSrc + 0)
          let g ← readByte self.mData (pSrc + 1)
          let b ← readByte self.mData (pSrc + 2)
          let a ← readByte self.mData (pSrc + 3)
          some (r, g, b, a)
        else do
          let r ← readByte self.mData (pSrc + 0)
          let g ← readByte self.mData (pSrc + 1)
          let b ← readByte self.mData (pSrc + 2)
          some (r, g, b, (255 : Byte))
      if res.mBytesPerPixel = 4 then do
        let d ← writeByte d (p + 0) r
        let d ← writeByte d (p + 1) g
        let d ← writeByte d (p + 2) b
        writeByte d (p + 3) a
      else do
        let d ← writeByte d (p + 0) r
        let d ← writeByte d (p + 1) g
        writeByte d (p + 2) b) d) d0
  some { res with mData := some d }

/-- The member `enlarge(scale)`. -/
def enlarge (self : TextureImage) (scale : Int) : Option TextureImage := do
  let res ← ctor (self.mWidth * scale) (self.mHeight * scale) self.mBytesPerPixel
  let d0 ← res.mData
  let d ← forLoop (self.mHeight * scale) (fun i d =>
    forLoop (self.mWidth * scale) (fun j d =>
      forLoop self.mBytesPerPixel (fun k d => do
        let i0 ← cdiv i scale
        let j0 ← cdiv j scale
        let v ← readByte self.mData (i0 * self.mPitch + j0 * self.mBytesPerPixel + k)
        writeByte d (i * res.mPitch + j * res.mBytesPerPixel + k) v) d) d) d0
  some { res with mData := some d }

/-- The member `shrink(scale)`. -/
def shrink (self : TextureImage) (scale : Int) : Option TextureImage := do
  let w ← cdiv self.mWidth scale
  let h ← cdiv self.mHeight scale
  let res ← ctor w h self.mBytesPerPixel
  let d0 ← res.mData
  let d ← forLoop h (fun i d =>
    forLoop w (fun j d =>
      forLoop self.mBytesPerPixel (fun k d => do
        let sum ← forLoop scale (fun i1 sum =>
          forLoop scale (fun j1 sum => do
            let v ← readByte self.mData
              ((i * scale + i1) * self.mPitch + (j * scale + j1) * self.mBytesPerPixel + k)
            some (wrapInt (sum + (v.val : Int)))) sum) (0 : Int)
        let q ← cdiv sum scale
        let q ← cdiv q scale
        writeByte d (i * res.mPitch + j * res.mBytesPerPixel + k) (toUChar q)) d) d) d0
  some { res with mData := some d }

/-- The member `resample(width, height)`.  The floating-point expression
`int(double(i) / n * m)` is the parameter `sample i n m`. -/
def resample (sample : Int → Int → Int → Int) (self : TextureImage) (width height : Int) :
    Option TextureImage := do
  let res ← ctor width height self.mBytesPerPixel
  let d0 ← res.mData
  let d ← forLoop height (fun i d =>
    forLoop width (fun j d =>
      forLoop self.mBytesPerPixel (fun k d => do
        let i1 := sample i height self.mHeight
        let j1 := sample j width self.mWidth
        let v ← if self.empty then some 0
          else readByte self.mData (i1 * self.mPitch + j1 * self.mBytesPerPixel + k)
        writeByte d (i * res.mPitch + j * res.mBytesPerPixel + k) v) d) d) d0
  some { res with mData := some d }

/-! ## The PNG normaliser -/

/-- The decoded image handed over by the PNG decoder (`SDL_Surface`): `w`, `h`,
`format->BytesPerPixel`, `pitch` and `pixels`. -/
structure SDL_Surface where
  w : Int
  h : Int
  BytesPerPixel : Int
  pitch : Int
  pixels : List Byte
  deriving DecidableEq

/-- The array returned by `new unsigned char[n]` before anything is written to it: its
contents `uninit` are arbitrary; a negative length does not return. -/
def newArray (uninit : Nat → Byte) (n : Int) : Option (List Byte) :=
  if n < 0 then none else some ((List.range n.toNat).map uninit)

/-- Auxiliary recursion of `ilog2`. -/
def ilog2Aux : Nat → Nat → Nat
  | 0, _ => 0
  | fuel + 1, n => if 2 ≤ n then ilog2Aux fuel (n / 2) + 1 else 0

/-- The expression `int(log2(w))`, the floor of the base-2 logarithm, defined for `w ≥ 1`. -/
def ilog2 (w : Int) : Option Nat :=
  if w ≤ 0 then none else some (ilog2Aux w.toNat w.toNat)

/-- The member `loadFromPNG(filename, checkSize, masked)`, applied to the result `surface` of
the decoder (`none` when the file could not be decoded); the result is the new state of
`*this`. -/
def loadFromPNG (self : TextureImage) (surface : Option SDL_Surface) (uninit : Nat → Byte)
    (checkSize : Bool := false) (masked : Bool := false) : Option TextureImage :=
  match surface with
  | none => some self
  | some surface => do
    -- `checkSize && surface->w != surface->h || (1 << int(log2(surface->w))) != surface->w`
    let bad ←
      if checkSize && decide (surface.w ≠ surface.h) then some true
      else do
        let e ← ilog2 surface.w
        some (decide ((2 : Int) ^ e ≠ surface.w))
    if bad then some self
    else if surface.BytesPerPixel = 1 then do
      let mWidth := surface.w
      let mHeight := surface.h
      let mBytesPerPixel : Int := 4
      let mPitch := alignedPitch (mWidth * mBytesPerPixel)
      let d0 ← newArray uninit (mHeight * mPitch)
      let d0 := List.replicate d0.length (255 : Byte)
      let d ← forLoop mHeight (fun i d =>
        forLoop mWidth (fun j d => do
          let col ← readByte (some surface.pixels) (i * surface.pitch + j)
          if masked then
            writeByte d (i * mPitch + j * mBytesPerPixel + 3) col
          else do
            let d ← writeByte d (i * mPitch + j * mBytesPerPixel + 0) col
            let d ← writeByte d (i * mPitch + j * mBytesPerPixel + 1) col
            writeByte d (i * mPitch + j * mBytesPerPixel + 2) col) d) d0
      some { mWidth := mWidth, mHeight := mHeight, mBytesPerPixel := mBytesPerPixel,
             mPitch := mPitch, mData := some d }
    else if surface.BytesPerPixel = 3 ∨ surface.BytesPerPixel = 4 then
      if masked then some self
      else do
        let mWidth := surface.w
        let mHeight := surface.h
        let mBytesPerPixel := surface.BytesPerPixel
        let mPitch := alignedPitch (mWidth * mBytesPerPixel)
        let d0 ← newArray uninit (mHeight * mPitch)
        let d ← forLoop mHeight (fun i d =>
          memcpy d (i * mPitch) surface.pixels (i * surface.pitch)
            (mWidth * mBytesPerPixel)) d0
        some { mWidth := mWidth, mHeight := mHeight, mBytesPerPixel := mBytesPerPixel,
               mPitch := mPitch, mData := some d }
    else some self

/-! ## Predicates and tables used in the statements -/

/-- The bytes of the array behind `mData` (none for a null pointer). -/
def bytes (self : TextureImage) : List Byte := self.mData.getD []

/-- The data model of a pixel buffer: non-negative dimensions, rows that fit into the pitch,
an array of exactly `mHeight * mPitch` bytes, and a null array only for a buffer without
pixels. -/
def Valid (self : TextureImage) : Prop :=
  0 ≤ self.mWidth ∧ 0 ≤ self.mHeight ∧ 0 ≤ self.mBytesPerPixel ∧
    self.mWidth * self.mBytesPerPixel ≤ self.mPitch ∧
    (self.bytes.length : Int) = self.mHeight * self.mPitch ∧
    (self.mData = none → self.mWidth = 0 ∧ self.mHeight = 0)

/-- The layout of a buffer with an aligned pitch. -/
def Layout (self : TextureImage) : Prop :=
  self.mPitch = alignedPitch (self.mWidth * self.mBytesPerPixel) ∧
    self.mPitch ≥ self.mWidth * self.mBytesPerPixel ∧
    Int.tmod self.mPitch 4 = 0 ∧
    (self.bytes.length : Int) = self.mHeight * self.mPitch

instance instDecidableValid (self : TextureImage) : Decidable self.Valid := by
  unfold Valid; exact inferInstance

instance instDecidableLayout (self : TextureImage) : Decidable self.Layout := by
  unfold Layout; exact inferInstance

/-- Sum of channel `k` over the `s × s` block of source pixels behind the pixel in row `i`,
column `j` of `shrink(s)`. -/
def blockSum (self : TextureImage) (s i j k : Int) : Int :=
  ∑ i1 in Finset.range s.toNat, ∑ j1 in Finset.range s.toNat,
    (((self.color (j * s + j1) (i * s + i1) k).getD 0).val : Int)

/-- Number of bytes `convert` writes per pixel of a result with `t` bytes per pixel. -/
def convertWidth (t : Int) : Int := if t = 4 then 4 else 3

/-- Byte `k` that `convert` writes for the source pixel in row `i`, column `j`. -/
def convertByte (self : TextureImage) (i j k : Int) : Byte :=
  if k = 3 then
    (if self.mBytesPerPixel = 4 then (self.color j i 3).getD 0 else 255)
  else (self.color j i k).getD 0

/-- Clipping of one axis of `copyFrom`: a negative destination offset is moved onto the
source offset, then a negative source offset onto the destination offset. -/
def clipAxis (p srcp : Int) : Int × Int :=
  let p1 := if p < 0 then 0 else p
  let s1 := if p < 0 then srcp - p else srcp
  if s1 < 0 then (p1 - s1, 0) else (p1, s1)

end TextureImage

/-! ## Tables used in the proofs -/

/-- Frame description of an update of an array from `d` to `d'`: the length is kept, the bytes
at the offsets in `A` are those of the table `v`, all other bytes are kept. -/
def Eff (A : Int → Prop) (v : Int → Byte) (d d' : List Byte) : Prop :=
  d'.length = d.length ∧
    ∀ idx : Int, (A idx → readByte (some d') idx = some (v idx)) ∧
      (¬ A idx → readByte (some d') idx = readByte (some d) idx)

/-- Value table of a pixel array, indexed by byte offset. -/
def pixelOf (P C : Int) (g : Int → Int → Int → Byte) (idx : Int) : Byte :=
  g (idx / P) (idx % P / C) (idx % P % C)

/-- Value table of the rows written by `copyFrom`, indexed by destination offset. -/
def rowSource (s : List Byte) (P SP C x y sx sy : Int) (idx : Int) : Byte :=
  (readByte (some s) ((idx / P - y + sy) * SP + sx * C + (idx % P - x * C))).getD 0

/-! ## Concrete buffers -/

namespace TextureImage

/-- A 2 × 2 RGB buffer with two padding bytes per row. -/
def rgb2x2 : TextureImage :=
  { mWidth := 2, mHeight := 2, mBytesPerPixel := 3, mPitch := 8,
    mData := some [10, 20, 30, 40, 50, 60, 0, 0, 70, 80, 90, 100, 110, 120, 0, 0] }

/-- A zero-filled 2 × 2 RGB buffer. -/
def zero2x2 : TextureImage :=
  { mWidth := 2, mHeight := 2, mBytesPerPixel := 3, mPitch := 8,
    mData := some (List.replicate 16 0) }

/-- A 4 × 4 RGB buffer whose byte at offset `n` is `n`. -/
def ramp4x4 : TextureImage :=
  { mWidth := 4, mHeight := 4, mBytesPerPixel := 3, mPitch := 12,
    mData := some ((List.range 48).map (fun n => Fin.ofNat n)) }

/-- A zero-filled 4 × 4 RGB buffer. -/
def zero4x4 : TextureImage :=
  { mWidth := 4, mHeight := 4, mBytesPerPixel := 3, mPitch := 12,
    mData := some (List.replicate 48 0) }

/-- A 2902 × 2902 RGB buffer in which every byte is 255. -/
def white2902 : TextureImage :=
  { mWidth := 2902, mHeight := 2902, mBytesPerPixel := 3, mPitch := 8708,
    mData := some (List.replicate 25270616 255) }

/-- A decoded 2 × 1 RGB image. -/
def rgbRow2 : SDL_Surface :=
  { w := 2, h := 1, BytesPerPixel := 3, pitch := 8, pixels := [1, 2, 3, 4, 5, 6, 0, 0] }

/-- A decoded 3 × 1 RGB image. -/
def rgbRow3 : SDL_Surface :=
  { w := 3, h := 1, BytesPerPixel := 3, pitch := 12,
    pixels := [1, 2, 3, 4, 5, 6, 7, 8, 9, 0, 0, 0] }

end TextureImage


/-! ## The BMP normaliser, assignment and move -/

namespace TextureImage

/-- The copy assignment `*this = r`: a fresh array of `r.mHeight * r.mPitch` bytes filled by
`memcpy` from the array of `r`; the result is the new state of `*this`. -/
def assign (_self r : TextureImage) (uninit : Nat → Byte) : Option TextureImage := do
  let d0 ← newArray uninit (r.mHeight * r.mPitch)
  let s ← r.mData
  let d ← memcpy d0 0 s 0 (r.mHeight * r.mPitch)
  some { mWidth := r.mWidth, mHeight := r.mHeight, mBytesPerPixel := r.mBytesPerPixel,
         mPitch := r.mPitch, mData := some d }

/-- The move constructor `TextureImage(TextureImage&& r)`: the fields of `r` are copied and the
null `mData` of the new object is swapped with `r.mData`.  The result is the new object and the
state of `r` afterwards. -/
def moveCtor (r : TextureImage) : TextureImage × TextureImage :=
  ({ mWidth := r.mWidth, mHeight := r.mHeight, mBytesPerPixel := r.mBytesPerPixel,
     mPitch := r.mPitch, mData := r.mData },
   { r with mData := none })

end TextureImage

/-! ## The mip pyramid -/

/-- Modelled from the spec: the enumeration `TextureFormat` of `opengl.h`, which is not among
the sources; the two formats of the GPU upload contract. -/
inductive TextureFormat where
  | TextureFormatRGB
  | TextureFormatRGBA
  deriving DecidableEq

/-- One call `glTexImage2D(GL_TEXTURE_2D, level, format, width, height, 0, srcFormat,
GL_UNSIGNED_BYTE, data)` of the GPU collaborator. -/
structure TexImage2D where
  level : Int
  format : TextureFormat
  width : Int
  height : Int
  srcFormat : TextureFormat
  data : Option (List Byte)
  deriving DecidableEq

/-- Modelled from the spec: the macro `Assert` of `debug.h`, which is not among the sources; a
violated assertion does not return. -/
def Assert (c : Bool) : Option Unit := if c then some () else none

/-- The function `Build2DMipmaps(image, format, level)`; `gl` is the list of the calls of
`glTexImage2D` made so far, the result the list after the call.  The calls that set sampler
parameters carry no image and are left out. -/
def Build2DMipmaps (image : TextureImage) (format : TextureFormat) (level : Int)
    (uninit : Nat → Byte) (gl : List TexImage2D) : Option (List TexImage2D) := do
  Assert (image.mBytesPerPixel == 3 || image.mBytesPerPixel == 4)
  let srcFormat :=
    if image.mBytesPerPixel = 4 then TextureFormat.TextureFormatRGBA
    else TextureFormat.TextureFormatRGB
  let curr : TextureImage := {}
  let curr ← curr.assign image uninit
  let st ← forLoop (level + 1) (fun i (st : TextureImage × List TexImage2D) => do
    let gl := st.2 ++ [{ level := i, format := format, width := st.1.mWidth,
                         height := st.1.mHeight, srcFormat := srcFormat, data := st.1.mData }]
    let t ← st.1.shrink 2
    let curr ← st.1.assign t uninit
    some (curr, gl)) (curr, gl)
  some st.2

/-- The member `Texture::load(image, alpha, bilinear, maxLevels)`; the result is the list of
the calls of `glTexImage2D` it makes. -/
def Texture.load (image : TextureImage) (uninit : Nat → Byte) (alpha : Bool := false)
    (_bilinear : Bool := true) (maxLevels : Int := 0) : Option (List TexImage2D) :=
  if image.mData = none then some []
  else do
    Assert (image.mBytesPerPixel == 3 || image.mBytesPerPixel == 4)
    let maxLevels ←
      if maxLevels < 0 then (TextureImage.ilog2 image.mWidth).map Int.ofNat
      else some maxLevels
    let format :=
      if alpha then TextureFormat.TextureFormatRGBA else TextureFormat.TextureFormatRGB
    Build2DMipmaps image format maxLevels uninit []

/-! ## Tables used in the statements about the pyramid and the normalisers -/

namespace TextureImage

/-- The result of `shrink(2)` applied `n` times. -/
def shrinkIter : Nat → TextureImage → Option TextureImage
  | 0, B => some B
  | n + 1, B => (shrinkIter n B).bind (fun L => L.shrink 2)

end TextureImage

/-- The upload of level `i` of the pyramid of `image`. -/
def mipLevel (image : TextureImage) (format : TextureFormat) (i : Nat) : TexImage2D :=
  let L := (TextureImage.shrinkIter i image).getD {}
  { level := i, format := format, width := L.mWidth, height := L.mHeight,
    srcFormat := if image.mBytesPerPixel = 4 then TextureFormat.TextureFormatRGBA
      else TextureFormat.TextureFormatRGB,
    data := L.mData }

namespace TextureImage

end TextureImage


/-! ## Evaluation in `int` arithmetic

The arguments of `alignedPitch`, of the constructor and of `copyFrom` are `int` values that a
caller chooses freely, and sums, differences and products of them can leave the range of
`int`.  The definitions of this section evaluate that arithmetic in 32-bit two's complement
(`wrapInt`); they agree with `alignedPitch`, `ctor` and `copyFrom` wherever nothing
overflows. -/

/-- The values of an `int`. -/
def InInt (v : Int) : Prop := -2147483648 ≤ v ∧ v ≤ INT_MAX

instance instDecidableInInt (v : Int) : Decidable (InInt v) := by
  unfold InInt; exact inferInstance

namespace TextureImage

/-- The static member `alignedPitch(pitch, align)`, with `pitch + align - pitch % align` in
`int` arithmetic. -/
def alignedPitchInt (pitch : Int) (align : Int := 4) : Int :=
  if Int.tmod pitch align = 0 then pitch
  else wrapInt (wrapInt (pitch + align) - Int.tmod pitch align)

/-- The constructor `TextureImage(width, height, bytesPerPixel)`, with the products
`mWidth * bytesPerPixel` and `mHeight * mPitch` in `int` arithmetic. -/
def ctorInt (width height bytesPerPixel : Int) : Option TextureImage :=
  let pitch := alignedPitchInt (wrapInt (width * bytesPerPixel))
  let n := wrapInt (height * pitch)
  if n < 0 then none
  else some
    { mWidth := width, mHeight := height, mBytesPerPixel := bytesPerPixel, mPitch := pitch,
      mData := some (List.replicate n.toNat 0) }

/-- The member `copyFrom(src, x, y, srcx, srcy)`, with the subtractions of the clipping and of
the block size in `int` arithmetic; the result is the new state of `*this`. -/
def copyFromInt (self src : TextureImage) (x y srcx srcy : Int) : Option TextureImage :=
  if src.mBytesPerPixel ≠ self.mBytesPerPixel then some self
  else
    let (srcx, x) := if x < 0 then (wrapInt (srcx - x), 0) else (srcx, x)
    let (srcy, y) := if y < 0 then (wrapInt (srcy - y), 0) else (srcy, y)
    let (x, srcx) := if srcx < 0 then (wrapInt (x - srcx), 0) else (x, srcx)
    let (y, srcy) := if srcy < 0 then (wrapInt (y - srcy), 0) else (y, srcy)
    let width := min (wrapInt (self.mWidth - x)) (wrapInt (src.mWidth - srcx))
    let height := min (wrapInt (self.mHeight - y)) (wrapInt (src.mHeight - srcy))
    if width ≤ 0 ∨ height ≤ 0 then some self
    else
      match self.mData, src.mData with
      | some d, some s =>
        match forLoop height (fun i d =>
            memcpy d ((i + y) * self.mPitch + x * self.mBytesPerPixel)
              s ((i + srcy) * src.mPitch + srcx * src.mBytesPerPixel)
              (width * self.mBytesPerPixel)) d with
        | some d' => some { self with mData := some d' }
        | none => none
      | _, _ => none

/-- Clipping of one axis of `copyFromInt`. -/
def clipAxisInt (p srcp : Int) : Int × Int :=
  let p1 := if p < 0 then 0 else p
  let s1 := if p < 0 then wrapInt (srcp - p) else srcp
  if s1 < 0 then (wrapInt (p1 - s1), 0) else (p1, s1)

/-- The members `mWidth`, `mHeight`, `mBytesPerPixel` and `mPitch` and the array length
`mHeight * mPitch` are values of `int`. -/
def IntSized (self : TextureImage) : Prop :=
  InInt self.mWidth ∧ InInt self.mHeight ∧ InInt self.mBytesPerPixel ∧ InInt self.mPitch ∧
    InInt (self.mHeight * self.mPitch)

instance instDecidableIntSized (self : TextureImage) : Decidable self.IntSized := by
  unfold IntSized; exact inferInstance

/-- A buffer of `w` columns, `h` rows and `c` bytes per pixel has sizes within `int`: `w`, `h`,
`c`, the sum `w * c + 3` formed when the pitch is rounded up, and the array length. -/
def Fits (w h c : Int) : Prop :=
  w ≤ INT_MAX ∧ h ≤ INT_MAX ∧ c ≤ INT_MAX ∧ w * c + 3 ≤ INT_MAX ∧
    h * alignedPitch (w * c) ≤ INT_MAX

instance instDecidableFits (w h c : Int) : Decidable (Fits w h c) := by
  unfold Fits; exact inferInstance

end TextureImage


theorem forLoopAux_inv {σ : Type} (body : Int → σ → Option σ) (P : Int → σ → Prop) :
    ∀ (fuel : Nat) (i : Int) (s : σ), P i s →
      (∀ j s, i ≤ j → j < i + fuel → P j s → ∃ s', body j s = some s' ∧ P (j + 1) s') →
      ∃ s', forLoopAux body fuel i s = some s' ∧ P (i + fuel) s' := by
  intro fuel
  induction fuel with
  | zero =>
    intro i s h _
    exact ⟨s, rfl, by simpa using h⟩
  | succ n ih =>
    intro i s h hstep
    obtain ⟨s1, hb, hP1⟩ := hstep i s (le_refl _) (by push_cast; omega) h
    obtain ⟨s2, hl, hP2⟩ := ih (i + 1) s1 hP1 (fun j t hj1 hj2 hPj =>
      hstep j t (by omega) (by push_cast; omega) hPj)
    refine ⟨s2, ?_, ?_⟩
    · simp only [forLoopAux, hb, hl]
    · have e : i + ((n + 1 : Nat) : Int) = i + 1 + (n : Int) := by push_cast; ring
      rw [e]; exact hP2

theorem forLoop_inv {σ : Type} (n : Int) (body : Int → σ → Option σ) (P : Int → σ → Prop)
    (s : σ) (h0 : P 0 s)
    (hstep : ∀ j s, 0 ≤ j → j < n → P j s → ∃ s', body j s = some s' ∧ P (j + 1) s') :
    ∃ s', forLoop n body s = some s' ∧ P (max n 0) s' := by
  obtain ⟨s', hl, hP⟩ := forLoopAux_inv body P n.toNat 0 s h0 (fun j t hj1 hj2 hPj =>
    hstep j t hj1 (by omega) hPj)
  refine ⟨s', hl, ?_⟩
  have e : (0 : Int) + (n.toNat : Int) = max n 0 := by omega
  rw [← e]; exact hP

theorem readByte_set (l : List Byte) (a idx : Int) (val : Byte) (h0 : 0 ≤ a)
    (h1 : a < l.length) :
    readByte (some (l.set a.toNat val)) idx
      = if idx = a then some val else readByte (some l) idx := by
  unfold readByte
  by_cases hi : 0 ≤ idx
  · simp only [hi, if_true, List.getElem?_set]
    by_cases e : idx = a
    · subst e
      have : idx.toNat < l.length := by omega
      simp [this]
    · have : ¬ a.toNat = idx.toNat := by omega
      simp [e, this]
  · have : ¬ idx = a := by omega
    simp [hi, this]

theorem writeByte_eff (d : List Byte) (a : Int) (val : Byte) (v : Int → Byte)
    (h0 : 0 ≤ a) (h1 : a < d.length) (hv : v a = val) :
    ∃ d', writeByte d a val = some d' ∧ Eff (fun idx => idx = a) v d d' := by
  refine ⟨d.set a.toNat val, by simp [writeByte, h0, h1], by simp, ?_⟩
  intro idx
  rw [readByte_set d a idx val h0 h1]
  constructor
  · intro h; simp [h, hv]
  · intro h; simp [h]

theorem Eff.refl (v : Int → Byte) (d : List Byte) : Eff (fun _ => False) v d d :=
  ⟨rfl, fun _ => ⟨fun h => h.elim, fun _ => rfl⟩⟩

theorem Eff.trans {A B : Int → Prop} {v : Int → Byte} {d d' d'' : List Byte}
    (h1 : Eff A v d d') (h2 : Eff B v d' d'') : Eff (fun idx => A idx ∨ B idx) v d d'' := by
  refine ⟨h2.1.trans h1.1, fun idx => ⟨?_, ?_⟩⟩
  · intro h
    by_cases hB : B idx
    · exact (h2.2 idx).1 hB
    · rw [(h2.2 idx).2 hB]
      rcases h with h | h
      · exact (h1.2 idx).1 h
      · exact (hB h).elim
  · intro h
    have hA : ¬ A idx := fun a => h (Or.inl a)
    have hB : ¬ B idx := fun b => h (Or.inr b)
    rw [(h2.2 idx).2 hB, (h1.2 idx).2 hA]

theorem Eff.congr {A B : Int → Prop} {v : Int → Byte} {d d' : List Byte}
    (h : Eff A v d d') (hAB : ∀ idx, A idx ↔ B idx) : Eff B v d d' :=
  ⟨h.1, fun idx => ⟨fun hb => (h.2 idx).1 ((hAB idx).2 hb),
    fun hb => (h.2 idx).2 (fun a => hb ((hAB idx).1 a))⟩⟩

theorem forLoop_eff (n : Int) (L : Nat) (body : Int → List Byte → Option (List Byte))
    (A : Int → Int → Prop) (v : Int → Byte)
    (hbody : ∀ i d, 0 ≤ i → i < n → d.length = L →
      ∃ d', body i d = some d' ∧ Eff (A i) v d d')
    (d : List Byte) (hd : d.length = L) :
    ∃ d', forLoop n body d = some d' ∧
      Eff (fun idx => ∃ i, 0 ≤ i ∧ i < n ∧ A i idx) v d d' := by
  obtain ⟨d', hl, hP⟩ := forLoop_inv n body
    (fun m t => Eff (fun idx => ∃ i, 0 ≤ i ∧ i < m ∧ A i idx) v d t) d
    ((Eff.refl v d).congr (fun idx => ⟨fun h => h.elim, fun ⟨i, h0, h1, _⟩ => by omega⟩))
    (fun j t hj0 hj1 hP => by
      obtain ⟨t', hb, he⟩ := hbody j t hj0 hj1 (hP.1.trans hd)
      refine ⟨t', hb, (hP.trans he).congr (fun idx => ⟨?_, ?_⟩)⟩
      · rintro (⟨i, h0, h1, ha⟩ | ha)
        · exact ⟨i, h0, by omega, ha⟩
        · exact ⟨j, hj0, by omega, ha⟩
      · rintro ⟨i, h0, h1, ha⟩
        by_cases e : i = j
        · subst e; exact Or.inr ha
        · exact Or.inl ⟨i, h0, by omega, ha⟩)
  refine ⟨d', hl, hP.congr (fun idx => ⟨?_, ?_⟩)⟩
  · rintro ⟨i, h0, h1, ha⟩
    exact ⟨i, h0, by omega, ha⟩
  · rintro ⟨i, h0, h1, ha⟩
    exact ⟨i, h0, by omega, ha⟩


theorem addr_bounds (H W C P i j k : Int) (hi0 : 0 ≤ i) (hi : i < H) (hj0 : 0 ≤ j)
    (hj : j < W) (hk0 : 0 ≤ k) (hk : k < C) (hP : W * C ≤ P) :
    0 ≤ j * C + k ∧ j * C + k < P ∧ 0 ≤ i * P + j * C + k ∧ i * P + j * C + k < H * P := by
  have hC : 0 ≤ C := by omega
  have h1 : 0 ≤ j * C := mul_nonneg hj0 hC
  have h2 : (j + 1) * C ≤ W * C := mul_le_mul_of_nonneg_right (by omega) hC
  have h3 : (j + 1) * C = j * C + C := by ring
  have hP0 : 0 ≤ P := by omega
  have h4 : 0 ≤ i * P := mul_nonneg hi0 hP0
  have h5 : (i + 1) * P ≤ H * P := mul_le_mul_of_nonneg_right (by omega) hP0
  have h6 : (i + 1) * P = i * P + P := by ring
  refine ⟨by omega, by omega, by omega, by omega⟩

theorem addr_decode (P i r : Int) (h0 : 0 ≤ r) (h1 : r < P) :
    (i * P + r) / P = i ∧ (i * P + r) % P = r := by
  have hP : P ≠ 0 := by omega
  constructor
  · rw [add_comm, Int.add_mul_ediv_right _ _ hP, Int.ediv_eq_zero_of_lt h0 h1, zero_add]
  · rw [add_comm, Int.add_mul_emod_self, Int.emod_eq_of_lt h0 h1]

theorem pixelOf_addr (H W C P : Int) (g : Int → Int → Int → Byte) (i j k : Int)
    (hi0 : 0 ≤ i) (hi : i < H) (hj0 : 0 ≤ j) (hj : j < W) (hk0 : 0 ≤ k) (hk : k < C)
    (hP : W * C ≤ P) : pixelOf P C g (i * P + j * C + k) = g i j k := by
  obtain ⟨b1, b2, _, _⟩ := addr_bounds H W C P i j k hi0 hi hj0 hj hk0 hk hP
  have e : i * P + j * C + k = i * P + (j * C + k) := by ring
  obtain ⟨e1, e2⟩ := addr_decode P i (j * C + k) b1 b2
  obtain ⟨e3, e4⟩ := addr_decode C j k hk0 hk
  simp only [pixelOf, e, e1, e2, e3, e4]

theorem fill2_spec (H W C K P : Int) (body : Int → Int → List Byte → Option (List Byte))
    (g : Int → Int → Int → Byte) (hK : K ≤ C) (hP : W * C ≤ P) (d0 : List Byte)
    (hbody : ∀ i j d, 0 ≤ i → i < H → 0 ≤ j → j < W → d.length = d0.length →
      ∃ d', body i j d = some d' ∧
        Eff (fun idx => ∃ k, 0 ≤ k ∧ k < K ∧ idx = i * P + j * C + k) (pixelOf P C g) d d') :
    ∃ d, forLoop H (fun i d => forLoop W (fun j d => body i j d) d) d0 = some d ∧
      d.length = d0.length ∧
      (∀ i j k, 0 ≤ i → i < H → 0 ≤ j → j < W → 0 ≤ k → k < K →
        readByte (some d) (i * P + j * C + k) = some (g i j k)) ∧
      (∀ idx, (¬ ∃ i j k, 0 ≤ i ∧ i < H ∧ 0 ≤ j ∧ j < W ∧ 0 ≤ k ∧ k < K ∧
          idx = i * P + j * C + k) → readByte (some d) idx = readByte (some d0) idx) := by
  obtain ⟨d, hd, he⟩ := forLoop_eff H d0.length
    (fun i d => forLoop W (fun j d => body i j d) d)
    (fun i idx => ∃ j, 0 ≤ j ∧ j < W ∧ ∃ k, 0 ≤ k ∧ k < K ∧ idx = i * P + j * C + k)
    (pixelOf P C g)
    (fun i d hi0 hi hdl => forLoop_eff W d0.length _
      (fun j idx => ∃ k, 0 ≤ k ∧ k < K ∧ idx = i * P + j * C + k) _
      (fun j d hj0 hj hdl => hbody i j d hi0 hi hj0 hj hdl) d hdl) d0 rfl
  refine ⟨d, hd, he.1, ?_, ?_⟩
  · intro i j k hi0 hi hj0 hj hk0 hk
    rw [(he.2 (i * P + j * C + k)).1 ⟨i, hi0, hi, j, hj0, hj, k, hk0, hk, rfl⟩,
      pixelOf_addr H W C P g i j k hi0 hi hj0 hj hk0 (by omega) hP]
  · intro idx hn
    refine (he.2 idx).2 ?_
    rintro ⟨i, hi0, hi, j, hj0, hj, k, hk0, hk, e⟩
    exact hn ⟨i, j, k, hi0, hi, hj0, hj, hk0, hk, e⟩

theorem fill_spec (H W C P : Int) (body : Int → Int → Int → List Byte → Option (List Byte))
    (g : Int → Int → Int → Byte) (hP : W * C ≤ P) (d0 : List Byte)
    (hlen : (d0.length : Int) = H * P)
    (hbody : ∀ i j k d, 0 ≤ i → i < H → 0 ≤ j → j < W → 0 ≤ k → k < C →
      body i j k d = writeByte d (i * P + j * C + k) (g i j k)) :
    ∃ d, forLoop H (fun i d => forLoop W (fun j d => forLoop C (fun k d => body i j k d) d) d) d0
        = some d ∧ d.length = d0.length ∧
      (∀ i j k, 0 ≤ i → i < H → 0 ≤ j → j < W → 0 ≤ k → k < C →
        readByte (some d) (i * P + j * C + k) = some (g i j k)) ∧
      (∀ idx, (¬ ∃ i j k, 0 ≤ i ∧ i < H ∧ 0 ≤ j ∧ j < W ∧ 0 ≤ k ∧ k < C ∧
          idx = i * P + j * C + k) → readByte (some d) idx = readByte (some d0) idx) :=
  fill2_spec H W C C P (fun i j d => forLoop C (fun k d => body i j k d) d) g (le_refl _) hP d0
    (fun i j d hi0 hi hj0 hj hdl => forLoop_eff C d0.length _
      (fun k idx => idx = i * P + j * C + k) _
      (fun k d hk0 hk hdl => by
        obtain ⟨_, _, b3, b4⟩ := addr_bounds H W C P i j k hi0 hi hj0 hj hk0 hk hP
        rw [hbody i j k d hi0 hi hj0 hj hk0 hk]
        exact writeByte_eff d _ _ _ b3 (by omega)
          (pixelOf_addr H W C P g i j k hi0 hi hj0 hj hk0 hk hP)) d hdl)

namespace TextureImage

theorem alignedPitch_four (p : Int) (hp : 0 ≤ p) :
    p ≤ alignedPitch p ∧ alignedPitch p < p + 4 ∧ Int.tmod (alignedPitch p) 4 = 0 := by
  unfold alignedPitch
  rw [Int.tmod_eq_emod hp (by norm_num)]
  split
  · refine ⟨le_refl _, by omega, ?_⟩
    rw [Int.tmod_eq_emod hp (by norm_num)]; assumption
  · refine ⟨by omega, by omega, ?_⟩
    rw [Int.tmod_eq_emod (by omega) (by norm_num)]; omega

theorem ctor_eq (w h c : Int) (hh : 0 ≤ h) (hwc : 0 ≤ w * c) :
    ctor w h c = some
      { mWidth := w, mHeight := h, mBytesPerPixel := c, mPitch := alignedPitch (w * c),
        mData := some (List.replicate (h * alignedPitch (w * c)).toNat 0) } := by
  have h1 := (alignedPitch_four (w * c) hwc).1
  have h2 : 0 ≤ h * alignedPitch (w * c) := mul_nonneg hh (by omega)
  simp only [ctor]
  rw [if_neg (by omega)]

theorem Valid.read {B : TextureImage} (hV : B.Valid) (x y c : Int) (hy0 : 0 ≤ y)
    (hy : y < B.mHeight) (hx0 : 0 ≤ x) (hx : x < B.mWidth) (hc0 : 0 ≤ c)
    (hc : c < B.mBytesPerPixel) :
    ∃ b, readByte B.mData (y * B.mPitch + x * B.mBytesPerPixel + c) = some b := by
  obtain ⟨_, _, _, hP, hlen, _⟩ := hV
  obtain ⟨_, _, b3, b4⟩ := addr_bounds _ _ _ _ y x c hy0 hy hx0 hx hc0 hc hP
  unfold bytes at hlen
  cases hd : B.mData with
  | none => rw [hd] at hlen; simp at hlen; omega
  | some d =>
    rw [hd] at hlen; simp only [Option.getD_some] at hlen
    have hlt : (y * B.mPitch + x * B.mBytesPerPixel + c).toNat < d.length := by omega
    exact ⟨d[(y * B.mPitch + x * B.mBytesPerPixel + c).toNat], by
      simp only [readByte, b3, if_true]; exact List.getElem?_eq_getElem hlt⟩

theorem readByte_replicate (n : Nat) (b : Byte) (idx : Int) (h0 : 0 ≤ idx) (h1 : idx < n) :
    readByte (some (List.replicate n b)) idx = some b := by
  have : idx.toNat < n := by omega
  simp [readByte, h0, List.getElem?_replicate, this]

theorem enlarge_spec (B : TextureImage) (s : Int) (hV : B.Valid) (hs : 1 ≤ s) :
    ∃ d, enlarge B s = some
        { mWidth := B.mWidth * s, mHeight := B.mHeight * s,
          mBytesPerPixel := B.mBytesPerPixel,
          mPitch := alignedPitch (B.mWidth * s * B.mBytesPerPixel), mData := some d } ∧
      (d.length : Int) = B.mHeight * s * alignedPitch (B.mWidth * s * B.mBytesPerPixel) ∧
      (∀ i j k, 0 ≤ i → i < B.mHeight * s → 0 ≤ j → j < B.mWidth * s → 0 ≤ k →
        k < B.mBytesPerPixel →
        ∃ b, readByte B.mData ((i / s) * B.mPitch + (j / s) * B.mBytesPerPixel + k) = some b ∧
          readByte (some d) (i * alignedPitch (B.mWidth * s * B.mBytesPerPixel)
            + j * B.mBytesPerPixel + k) = some b) ∧
      (∀ idx, (¬ ∃ i j k, 0 ≤ i ∧ i < B.mHeight * s ∧ 0 ≤ j ∧ j < B.mWidth * s ∧ 0 ≤ k ∧
          k < B.mBytesPerPixel ∧
          idx = i * alignedPitch (B.mWidth * s * B.mBytesPerPixel) + j * B.mBytesPerPixel + k) →
        0 ≤ idx → idx < B.mHeight * s * alignedPitch (B.mWidth * s * B.mBytesPerPixel) →
        readByte (some d) idx = some 0) := by
  have hV' := hV
  obtain ⟨hw, hh, hc, hP, hlen, _⟩ := hV'
  have hws : 0 ≤ B.mWidth * s := mul_nonneg hw (by omega)
  have hhs : 0 ≤ B.mHeight * s := mul_nonneg hh (by omega)
  have hwc : 0 ≤ B.mWidth * s * B.mBytesPerPixel := mul_nonneg hws hc
  obtain ⟨a1, a2, a3⟩ := alignedPitch_four _ hwc
  have hsz : 0 ≤ B.mHeight * s * alignedPitch (B.mWidth * s * B.mBytesPerPixel) :=
    mul_nonneg hhs (by omega)
  have hsrc : ∀ i j k, 0 ≤ i → i < B.mHeight * s → 0 ≤ j → j < B.mWidth * s → 0 ≤ k →
      k < B.mBytesPerPixel →
      ∃ b, readByte B.mData ((i / s) * B.mPitch + (j / s) * B.mBytesPerPixel + k) = some b :=
    fun i j k hi0 hi hj0 hj hk0 hk =>
      hV.read (j / s) (i / s) k (Int.ediv_nonneg hi0 (by omega))
        (Int.ediv_lt_of_lt_mul (by omega) hi) (Int.ediv_nonneg hj0 (by omega))
        (Int.ediv_lt_of_lt_mul (by omega) hj) hk0 hk
  obtain ⟨d, hd, hl, hin, hout⟩ := fill_spec (B.mHeight * s) (B.mWidth * s) B.mBytesPerPixel
    (alignedPitch (B.mWidth * s * B.mBytesPerPixel))
    (fun i j k d => do
        let i0 ← cdiv i s
        let j0 ← cdiv j s
        let v ← readByte B.mData (i0 * B.mPitch + j0 * B.mBytesPerPixel + k)
        writeByte d (i * alignedPitch (B.mWidth * s * B.mBytesPerPixel)
          + j * B.mBytesPerPixel + k) v)
    (fun i j k => (readByte B.mData ((i / s) * B.mPitch + (j / s) * B.mBytesPerPixel + k)).getD 0)
    a1 (List.replicate (B.mHeight * s * alignedPitch (B.mWidth * s * B.mBytesPerPixel)).toNat 0)
    (by simp only [List.length_replicate]; omega)
    (fun i j k d hi0 hi hj0 hj hk0 hk => by
      obtain ⟨b, hb⟩ := hsrc i j k hi0 hi hj0 hj hk0 hk
      have e1 : cdiv i s = some (i / s) := by
        simp only [cdiv]; rw [if_neg (by omega), Int.tdiv_eq_ediv hi0 (by omega)]
      have e2 : cdiv j s = some (j / s) := by
        simp only [cdiv]; rw [if_neg (by omega), Int.tdiv_eq_ediv hj0 (by omega)]
      simp only [e1, e2, hb, Option.bind_eq_bind, Option.some_bind, Option.getD_some])
  refine ⟨d, ?_, ?_, ?_, ?_⟩
  · simp only [enlarge, ctor_eq _ _ _ hhs hwc, Option.bind_eq_bind, Option.some_bind]
    simp only [Option.bind_eq_bind, Option.some_bind] at hd
    rw [hd]; rfl
  · rw [hl]; simp only [List.length_replicate]; omega
  · intro i j k hi0 hi hj0 hj hk0 hk
    obtain ⟨b, hb⟩ := hsrc i j k hi0 hi hj0 hj hk0 hk
    refine ⟨b, hb, ?_⟩
    rw [hin i j k hi0 hi hj0 hj hk0 hk, hb]; rfl
  · intro idx hn h0 h1
    rw [hout idx hn]
    exact readByte_replicate _ _ _ h0 (by omega)

end TextureImage

theorem wrapInt_add_wrap (a b : Int) : wrapInt (wrapInt a + b) = wrapInt (a + b) := by
  unfold wrapInt; omega

theorem wrapInt_of_range (a : Int) (h0 : -2147483648 ≤ a) (h1 : a ≤ INT_MAX) :
    wrapInt a = a := by
  unfold INT_MAX at h1; unfold wrapInt; omega

theorem wrapInt_idem (a : Int) : wrapInt (wrapInt a) = wrapInt a := by
  unfold wrapInt; omega

theorem cdiv_nonneg (a s : Int) (ha : 0 ≤ a) (hs : 1 ≤ s) : cdiv a s = some (a / s) := by
  simp only [cdiv]; rw [if_neg (by omega), Int.tdiv_eq_ediv ha (by omega)]

theorem cdiv_pos (a s : Int) (hs : 1 ≤ s) : cdiv a s = some (Int.tdiv a s) := by
  simp only [cdiv]; rw [if_neg (by omega)]

theorem sumLoop (n : Int) (body : Int → Int → Option Int) (t : Int → Int)
    (hbody : ∀ i acc, 0 ≤ i → i < n → wrapInt acc = acc →
      body i acc = some (wrapInt (acc + t i)))
    (acc0 : Int) (h0 : wrapInt acc0 = acc0) :
    forLoop n body acc0 = some (wrapInt (acc0 + ∑ i in Finset.range n.toNat, t (i : Int))) := by
  obtain ⟨r, hr, hP⟩ := forLoop_inv n body
    (fun m acc => acc = wrapInt (acc0 + ∑ i in Finset.range m.toNat, t (i : Int))) acc0
    (by simp [h0])
    (fun j acc hj0 hj hP => by
      refine ⟨_, hbody j acc hj0 hj (by
        have hP' : acc = wrapInt (acc0 + ∑ i in Finset.range j.toNat, t (i : Int)) := hP
        rw [hP', wrapInt_idem]), ?_⟩
      have e : (j + 1).toNat = j.toNat + 1 := by omega
      have e2 : ((j.toNat : Nat) : Int) = j := by omega
      have hP' : acc = wrapInt (acc0 + ∑ i in Finset.range j.toNat, t (i : Int)) := hP
      show wrapInt (acc + t j)
        = wrapInt (acc0 + ∑ i in Finset.range (j + 1).toNat, t (i : Int))
      rw [e, Finset.sum_range_succ, e2, hP', wrapInt_add_wrap, add_assoc])
  have hP' : r = wrapInt (acc0 + ∑ i in Finset.range (max n 0).toNat, t (i : Int)) := hP
  have e : (max n 0).toNat = n.toNat := by omega
  rw [hr, hP', e]

namespace TextureImage

theorem shrink_src_bound (h s i i1 : Int) (hs : 1 ≤ s) (hi0 : 0 ≤ i) (hi : i < h / s)
    (h0 : 0 ≤ i1) (h1 : i1 < s) : 0 ≤ i * s + i1 ∧ i * s + i1 < h := by
  have a1 : h / s * s ≤ h := Int.ediv_mul_le h (by omega)
  have a2 : (i + 1) * s ≤ h / s * s := mul_le_mul_of_nonneg_right (by omega) (by omega)
  have a3 : (i + 1) * s = i * s + s := by ring
  have a4 : 0 ≤ i * s := mul_nonneg hi0 (by omega)
  constructor <;> omega

theorem shrink_spec (B : TextureImage) (s : Int) (hV : B.Valid) (hs : 1 ≤ s) :
    ∃ d, shrink B s = some
        { mWidth := B.mWidth / s, mHeight := B.mHeight / s,
          mBytesPerPixel := B.mBytesPerPixel,
          mPitch := alignedPitch (B.mWidth / s * B.mBytesPerPixel), mData := some d } ∧
      (d.length : Int) = B.mHeight / s * alignedPitch (B.mWidth / s * B.mBytesPerPixel) ∧
      (∀ i j k, 0 ≤ i → i < B.mHeight / s → 0 ≤ j → j < B.mWidth / s → 0 ≤ k →
        k < B.mBytesPerPixel →
        readByte (some d) (i * alignedPitch (B.mWidth / s * B.mBytesPerPixel)
            + j * B.mBytesPerPixel + k)
          = some (toUChar (Int.tdiv (Int.tdiv (wrapInt (B.blockSum s i j k)) s) s))) ∧
      (∀ idx, (¬ ∃ i j k, 0 ≤ i ∧ i < B.mHeight / s ∧ 0 ≤ j ∧ j < B.mWidth / s ∧ 0 ≤ k ∧
          k < B.mBytesPerPixel ∧
          idx = i * alignedPitch (B.mWidth / s * B.mBytesPerPixel) + j * B.mBytesPerPixel + k) →
        0 ≤ idx → idx < B.mHeight / s * alignedPitch (B.mWidth / s * B.mBytesPerPixel) →
        readByte (some d) idx = some 0) := by
  have hV' := hV
  obtain ⟨hw, hh, hc, hP, hlen, _⟩ := hV'
  have hws : 0 ≤ B.mWidth / s := Int.ediv_nonneg hw (by omega)
  have hhs : 0 ≤ B.mHeight / s := Int.ediv_nonneg hh (by omega)
  have hwc : 0 ≤ B.mWidth / s * B.mBytesPerPixel := mul_nonneg hws hc
  obtain ⟨a1, a2, a3⟩ := alignedPitch_four _ hwc
  have hsz : 0 ≤ B.mHeight / s * alignedPitch (B.mWidth / s * B.mBytesPerPixel) :=
    mul_nonneg hhs (by omega)
  obtain ⟨d, hd, hl, hin, hout⟩ := fill_spec (B.mHeight / s) (B.mWidth / s) B.mBytesPerPixel
    (alignedPitch (B.mWidth / s * B.mBytesPerPixel))
    (fun i j k d => do
        let sum ← forLoop s (fun i1 sum =>
          forLoop s (fun j1 sum => do
            let v ← readByte B.mData
              ((i * s + i1) * B.mPitch + (j * s + j1) * B.mBytesPerPixel + k)
            some (wrapInt (sum + (v.val : Int)))) sum) (0 : Int)
        let q ← cdiv sum s
        let q ← cdiv q s
        writeByte d (i * alignedPitch (B.mWidth / s * B.mBytesPerPixel)
          + j * B.mBytesPerPixel + k) (toUChar q))
    (fun i j k => toUChar (Int.tdiv (Int.tdiv (wrapInt (B.blockSum s i j k)) s) s))
    a1 (List.replicate (B.mHeight / s * alignedPitch (B.mWidth / s * B.mBytesPerPixel)).toNat 0)
    (by simp only [List.length_replicate]; omega)
    (fun i j k d hi0 hi hj0 hj hk0 hk => by
      have hsum := sumLoop s (fun i1 sum =>
          forLoop s (fun j1 sum => do
            let v ← readByte B.mData
              ((i * s + i1) * B.mPitch + (j * s + j1) * B.mBytesPerPixel + k)
            some (wrapInt (sum + (v.val : Int)))) sum)
        (fun i1 => ∑ j1 in Finset.range s.toNat,
          (((B.color (j * s + j1) (i * s + i1) k).getD 0).val : Int))
        (fun i1 acc h0 h1 hacc => sumLoop s _
          (fun j1 => (((B.color (j * s + j1) (i * s + i1) k).getD 0).val : Int))
          (fun j1 acc g0 g1 _ => by
            obtain ⟨r0, r1⟩ := shrink_src_bound _ s i i1 hs hi0 hi h0 h1
            obtain ⟨c0, c1⟩ := shrink_src_bound _ s j j1 hs hj0 hj g0 g1
            obtain ⟨b, hb⟩ := hV.read (j * s + j1) (i * s + i1) k r0 r1 c0 c1 hk0 hk
            simp only [color, hb, Option.bind_eq_bind, Option.some_bind, Option.getD_some])
          acc hacc)
        0 (by unfold wrapInt; omega)
      simp only [Option.bind_eq_bind] at hsum ⊢
      rw [hsum]
      simp only [Option.some_bind, zero_add, cdiv_pos _ s hs, blockSum])
  refine ⟨d, ?_, ?_, hin, ?_⟩
  · simp only [shrink, cdiv_nonneg _ s hw hs, cdiv_nonneg _ s hh hs, ctor_eq _ _ _ hhs hwc,
      Option.bind_eq_bind, Option.some_bind]
    simp only [Option.bind_eq_bind, Option.some_bind] at hd
    rw [hd]; rfl
  · rw [hl]; simp only [List.length_replicate]; omega
  · intro idx hn h0 h1
    rw [hout idx hn]
    exact readByte_replicate _ _ _ h0 (by omega)

end TextureImage

theorem write3_eff (d : List Byte) (p : Int) (r g b : Byte) (v : Int → Byte)
    (h0 : 0 ≤ p) (h1 : p + 3 ≤ d.length) (hr : v (p + 0) = r) (hg : v (p + 1) = g)
    (hb : v (p + 2) = b) :
    ∃ d', ((writeByte d (p + 0) r).bind fun d =>
        (writeByte d (p + 1) g).bind fun d => writeByte d (p + 2) b) = some d' ∧
      Eff (fun idx => ∃ k, 0 ≤ k ∧ k < 3 ∧ idx = p + k) v d d' := by
  obtain ⟨d1, w1, e1⟩ := writeByte_eff d (p + 0) r v (by omega) (by omega) hr
  obtain ⟨d2, w2, e2⟩ := writeByte_eff d1 (p + 1) g v (by omega) (by rw [e1.1]; omega) hg
  obtain ⟨d3, w3, e3⟩ := writeByte_eff d2 (p + 2) b v (by omega)
    (by rw [e2.1, e1.1]; omega) hb
  refine ⟨d3, by simp only [w1, w2, w3, Option.some_bind], ?_⟩
  refine ((e1.trans e2).trans e3).congr (fun idx => ⟨?_, ?_⟩)
  · rintro ((h | h) | h)
    · exact ⟨0, by omega, by omega, h⟩
    · exact ⟨1, by omega, by omega, h⟩
    · exact ⟨2, by omega, by omega, h⟩
  · rintro ⟨k, k0, k1, h⟩
    have : k = 0 ∨ k = 1 ∨ k = 2 := by omega
    rcases this with e | e | e <;> subst e
    · exact Or.inl (Or.inl h)
    · exact Or.inl (Or.inr h)
    · exact Or.inr h

theorem write4_eff (d : List Byte) (p : Int) (r g b a : Byte) (v : Int → Byte)
    (h0 : 0 ≤ p) (h1 : p + 4 ≤ d.length) (hr : v (p + 0) = r) (hg : v (p + 1) = g)
    (hb : v (p + 2) = b) (ha : v (p + 3) = a) :
    ∃ d', ((writeByte d (p + 0) r).bind fun d =>
        (writeByte d (p + 1) g).bind fun d =>
          (writeByte d (p + 2) b).bind fun d => writeByte d (p + 3) a) = some d' ∧
      Eff (fun idx => ∃ k, 0 ≤ k ∧ k < 4 ∧ idx = p + k) v d d' := by
  obtain ⟨d1, w1, e1⟩ := writeByte_eff d (p + 0) r v (by omega) (by omega) hr
  obtain ⟨d2, w2, e2⟩ := writeByte_eff d1 (p + 1) g v (by omega) (by rw [e1.1]; omega) hg
  obtain ⟨d3, w3, e3⟩ := writeByte_eff d2 (p + 2) b v (by omega)
    (by rw [e2.1, e1.1]; omega) hb
  obtain ⟨d4, w4, e4⟩ := writeByte_eff d3 (p + 3) a v (by omega)
    (by rw [e3.1, e2.1, e1.1]; omega) ha
  refine ⟨d4, by simp only [w1, w2, w3, w4, Option.some_bind], ?_⟩
  refine (((e1.trans e2).trans e3).trans e4).congr (fun idx => ⟨?_, ?_⟩)
  · rintro (((h | h) | h) | h)
    · exact ⟨0, by omega, by omega, h⟩
    · exact ⟨1, by omega, by omega, h⟩
    · exact ⟨2, by omega, by omega, h⟩
    · exact ⟨3, by omega, by omega, h⟩
  · rintro ⟨k, k0, k1, h⟩
    have : k = 0 ∨ k = 1 ∨ k = 2 ∨ k = 3 := by omega
    rcases this with e | e | e | e <;> subst e
    · exact Or.inl (Or.inl (Or.inl h))
    · exact Or.inl (Or.inl (Or.inr h))
    · exact Or.inl (Or.inr h)
    · exact Or.inr h

namespace TextureImage

theorem convertByte_rgb (B : TextureImage) (i j k : Int) (hk : k ≠ 3) :
    B.convertByte i j k
      = (readByte B.mData (i * B.mPitch + j * B.mBytesPerPixel + k)).getD 0 := by
  unfold convertByte color; rw [if_neg hk]

theorem convertByte_alpha (B : TextureImage) (i j : Int) :
    B.convertByte i j 3
      = if B.mBytesPerPixel = 4 then
          (readByte B.mData (i * B.mPitch + j * B.mBytesPerPixel + 3)).getD 0
        else 255 := by
  unfold convertByte color; rw [if_pos rfl]

theorem convert_spec (B : TextureImage) (t : Int) (hV : B.Valid) (hb : 3 ≤ B.mBytesPerPixel)
    (ht : 3 ≤ t) :
    ∃ d, convert B t = some
        { mWidth := B.mWidth, mHeight := B.mHeight, mBytesPerPixel := t,
          mPitch := alignedPitch (B.mWidth * t), mData := some d } ∧
      (d.length : Int) = B.mHeight * alignedPitch (B.mWidth * t) ∧
      (∀ i j k, 0 ≤ i → i < B.mHeight → 0 ≤ j → j < B.mWidth → 0 ≤ k → k < convertWidth t →
        readByte (some d) (i * alignedPitch (B.mWidth * t) + j * t + k)
          = some (B.convertByte i j k)) ∧
      (∀ idx, (¬ ∃ i j k, 0 ≤ i ∧ i < B.mHeight ∧ 0 ≤ j ∧ j < B.mWidth ∧ 0 ≤ k ∧
          k < convertWidth t ∧ idx = i * alignedPitch (B.mWidth * t) + j * t + k) →
        0 ≤ idx → idx < B.mHeight * alignedPitch (B.mWidth * t) →
        readByte (some d) idx = some 0) := by
  have hV' := hV
  obtain ⟨hw, hh, hc, hP, hlen, _⟩ := hV'
  have hwc : 0 ≤ B.mWidth * t := mul_nonneg hw (by omega)
  obtain ⟨a1, a2, a3⟩ := alignedPitch_four _ hwc
  have hsz : 0 ≤ B.mHeight * alignedPitch (B.mWidth * t) := mul_nonneg hh (by omega)
  have hKt : convertWidth t ≤ t := by unfold convertWidth; split <;> omega
  obtain ⟨d, hd, hl, hin, hout⟩ := fill2_spec B.mHeight B.mWidth t (convertWidth t)
    (alignedPitch (B.mWidth * t))
    (fun i j d => do
      let p := i * alignedPitch (B.mWidth * t) + j * t
      let pSrc := i * B.mPitch + j * B.mBytesPerPixel
      let (r, g, b, a) ←
        if B.mBytesPerPixel = 4 then do
          let r ← readByte B.mData (pSrc + 0)
          let g ← readByte B.mData (pSrc + 1)
          let b ← readByte B.mData (pSrc + 2)
          let a ← readByte B.mData (pSrc + 3)
          some (r, g, b, a)
        else do
          let r ← readByte B.mData (pSrc + 0)
          let g ← readByte B.mData (pSrc + 1)
          let b ← readByte B.mData (pSrc + 2)
          some (r, g, b, (255 : Byte))
      if t = 4 then do
        let d ← writeByte d (p + 0) r
        let d ← writeByte d (p + 1) g
        let d ← writeByte d (p + 2) b
        writeByte d (p + 3) a
      else do
        let d ← writeByte d (p + 0) r
        let d ← writeByte d (p + 1) g
        writeByte d (p + 2) b)
    B.convertByte hKt a1
    (List.replicate (B.mHeight * alignedPitch (B.mWidth * t)).toNat 0)
    (fun i j d hi0 hi hj0 hj hdl => by
      simp only [List.length_replicate] at hdl
      obtain ⟨r, hr⟩ := hV.read j i 0 hi0 hi hj0 hj (by omega) (by omega)
      obtain ⟨g, hg⟩ := hV.read j i 1 hi0 hi hj0 hj (by omega) (by omega)
      obtain ⟨b, hb2⟩ := hV.read j i 2 hi0 hi hj0 hj (by omega) (by omega)
      have pv : ∀ k, 0 ≤ k → k < t →
          pixelOf (alignedPitch (B.mWidth * t)) t B.convertByte
            (i * alignedPitch (B.mWidth * t) + j * t + k) = B.convertByte i j k :=
        fun k k0 k1 => pixelOf_addr B.mHeight B.mWidth t _ _ i j k hi0 hi hj0 hj k0 k1 a1
      obtain ⟨_, _, q0, _⟩ := addr_bounds B.mHeight B.mWidth t _ i j 0 hi0 hi hj0 hj
        (by omega) (by omega) a1
      obtain ⟨_, _, _, q3⟩ := addr_bounds B.mHeight B.mWidth t _ i j (t - 1) hi0 hi hj0 hj
        (by omega) (by omega) a1
      have cr : B.convertByte i j 0 = r := by
        rw [convertByte_rgb _ _ _ _ (by norm_num), hr]; rfl
      have cg : B.convertByte i j 1 = g := by
        rw [convertByte_rgb _ _ _ _ (by norm_num), hg]; rfl
      have cb : B.convertByte i j 2 = b := by
        rw [convertByte_rgb _ _ _ _ (by norm_num), hb2]; rfl
      by_cases h4 : B.mBytesPerPixel = 4
      · obtain ⟨a, ha⟩ := hV.read j i 3 hi0 hi hj0 hj (by omega) (by omega)
        have ca : B.convertByte i j 3 = a := by
          rw [convertByte_alpha, if_pos h4, ha]; rfl
        by_cases t4 : t = 4
        · simp only [hr, hg, hb2, ha, Option.bind_eq_bind, Option.some_bind]
          simp only [if_pos h4, if_pos t4, Option.some_bind, convertWidth]
          subst t4
          exact write4_eff d _ r g b a _ (by omega) (by omega)
            ((pv 0 (by omega) (by omega)).trans cr) ((pv 1 (by omega) (by omega)).trans cg)
            ((pv 2 (by omega) (by omega)).trans cb) ((pv 3 (by omega) (by omega)).trans ca)
        · simp only [hr, hg, hb2, ha, Option.bind_eq_bind, Option.some_bind]
          simp only [if_pos h4, if_neg t4, Option.some_bind, convertWidth]
          exact write3_eff d _ r g b _ (by omega) (by omega)
            ((pv 0 (by omega) (by omega)).trans cr) ((pv 1 (by omega) (by omega)).trans cg)
            ((pv 2 (by omega) (by omega)).trans cb)
      · have ca : B.convertByte i j 3 = 255 := by
          rw [convertByte_alpha, if_neg h4]
        by_cases t4 : t = 4
        · simp only [hr, hg, hb2, Option.bind_eq_bind, Option.some_bind]
          simp only [if_neg h4, if_pos t4, Option.some_bind, convertWidth]
          subst t4
          exact write4_eff d _ r g b 255 _ (by omega) (by omega)
            ((pv 0 (by omega) (by omega)).trans cr) ((pv 1 (by omega) (by omega)).trans cg)
            ((pv 2 (by omega) (by omega)).trans cb) ((pv 3 (by omega) (by omega)).trans ca)
        · simp only [hr, hg, hb2, Option.bind_eq_bind, Option.some_bind]
          simp only [if_neg h4, if_neg t4, Option.some_bind, convertWidth]
          exact write3_eff d _ r g b _ (by omega) (by omega)
            ((pv 0 (by omega) (by omega)).trans cr) ((pv 1 (by omega) (by omega)).trans cg)
            ((pv 2 (by omega) (by omega)).trans cb))
  refine ⟨d, ?_, ?_, hin, ?_⟩
  · simp only [convert, ctor_eq _ _ _ hh hwc, Option.bind_eq_bind, Option.some_bind]
    simp only [Option.bind_eq_bind, Option.some_bind] at hd
    rw [hd]; rfl
  · rw [hl]; simp only [List.length_replicate]; omega
  · intro idx hn h0 h1
    rw [hout idx hn]
    exact readByte_replicate _ _ _ h0 (by omega)

end TextureImage

theorem memcpy_eff (dst src : List Byte) (doff soff n : Int) (v : Int → Byte)
    (h0 : 0 ≤ doff) (h1 : 0 ≤ soff) (h2 : 0 ≤ n) (h3 : doff + n ≤ dst.length)
    (h4 : soff + n ≤ src.length)
    (hv : ∀ t, 0 ≤ t → t < n → readByte (some src) (soff + t) = some (v (doff + t))) :
    ∃ d', memcpy dst doff src soff n = some d' ∧
      Eff (fun idx => doff ≤ idx ∧ idx < doff + n) v dst d' := by
  have hl1 : (dst.take doff.toNat).length = doff.toNat := by
    rw [List.length_take]; omega
  have hl2 : ((src.drop soff.toNat).take n.toNat).length = n.toNat := by
    rw [List.length_take, List.length_drop]; omega
  refine ⟨_, by simp only [memcpy]; rw [if_pos ⟨h0, h1, h2, h3, h4⟩], ?_, ?_⟩
  · simp only [List.length_append, hl1, hl2, List.length_drop]; omega
  · intro idx
    by_cases hi : 0 ≤ idx
    · simp only [readByte, if_pos hi]
      by_cases ha : idx < doff
      · refine ⟨fun h => by omega, fun _ => ?_⟩
        rw [List.getElem?_append_left (by rw [hl1]; omega),
          List.getElem?_take_of_lt (by omega)]
      · rw [List.getElem?_append_right (by rw [hl1]; omega), hl1]
        by_cases hb : idx < doff + n
        · refine ⟨fun _ => ?_, fun h => (h ⟨by omega, hb⟩).elim⟩
          rw [List.getElem?_append_left (by rw [hl2]; omega),
            List.getElem?_take_of_lt (by omega), List.getElem?_drop]
          have := hv (idx - doff) (by omega) (by omega)
          simp only [readByte] at this
          rw [if_pos (by omega)] at this
          have e1 : (soff + (idx - doff)).toNat = soff.toNat + (idx.toNat - doff.toNat) := by
            omega
          have e2 : doff + (idx - doff) = idx := by ring
          rw [e1, e2] at this
          exact this
        · refine ⟨fun h => by omega, fun _ => ?_⟩
          rw [List.getElem?_append_right (by rw [hl2]; omega), hl2, List.getElem?_drop]
          congr 1
          omega
    · refine ⟨fun h => by omega, fun _ => ?_⟩
      simp only [readByte, if_neg hi]

theorem row_bounds (H W C P y x w : Int) (hy0 : 0 ≤ y) (hy : y < H) (hx0 : 0 ≤ x)
    (hw0 : 0 ≤ w) (hxw : x + w ≤ W) (hC : 0 ≤ C) (hP : W * C ≤ P) :
    0 ≤ x * C ∧ 0 ≤ w * C ∧ x * C + w * C ≤ P ∧ 0 ≤ y * P ∧ y * P + P ≤ H * P := by
  have h1 : 0 ≤ x * C := mul_nonneg hx0 hC
  have h1' : 0 ≤ w * C := mul_nonneg hw0 hC
  have h2 : (x + w) * C ≤ W * C := mul_le_mul_of_nonneg_right hxw hC
  have h3 : (x + w) * C = x * C + w * C := by ring
  have hP0 : 0 ≤ P := by omega
  have h4 : 0 ≤ y * P := mul_nonneg hy0 hP0
  have h5 : (y + 1) * P ≤ H * P := mul_le_mul_of_nonneg_right (by omega) hP0
  have h6 : (y + 1) * P = y * P + P := by ring
  refine ⟨h1, h1', by omega, h4, by omega⟩

theorem copyRows_spec (d s : List Byte) (H W P SH SW SP C x y sx sy w h : Int)
    (hd : (d.length : Int) = H * P) (hs : (s.length : Int) = SH * SP)
    (hP : W * C ≤ P) (hSP : SW * C ≤ SP) (hC : 0 ≤ C)
    (hx : 0 ≤ x) (hy : 0 ≤ y) (hsx : 0 ≤ sx) (hsy : 0 ≤ sy) (hw : 0 ≤ w)
    (hxw : x + w ≤ W) (hyh : y + h ≤ H) (hsxw : sx + w ≤ SW) (hsyh : sy + h ≤ SH) :
    ∃ d', forLoop h (fun i d =>
        memcpy d ((i + y) * P + x * C) s ((i + sy) * SP + sx * C) (w * C)) d = some d' ∧
      d'.length = d.length ∧
      (∀ i t, 0 ≤ i → i < h → 0 ≤ t → t < w * C →
        ∃ b, readByte (some s) ((i + sy) * SP + sx * C + t) = some b ∧
          readByte (some d') ((i + y) * P + x * C + t) = some b) ∧
      (∀ idx, (¬ ∃ i t, 0 ≤ i ∧ i < h ∧ 0 ≤ t ∧ t < w * C ∧ idx = (i + y) * P + x * C + t) →
        readByte (some d') idx = readByte (some d) idx) := by
  have srcRead : ∀ i t, 0 ≤ i → i < h → 0 ≤ t → t < w * C →
      ∃ b, readByte (some s) ((i + sy) * SP + sx * C + t) = some b := by
    intro i t hi0 hi ht0 ht
    obtain ⟨r1, r2, r3, r4, r5⟩ := row_bounds SH SW C SP (i + sy) sx w (by omega) (by omega)
      hsx hw hsxw hC hSP
    have hlt : ((i + sy) * SP + sx * C + t).toNat < s.length := by omega
    exact ⟨s[((i + sy) * SP + sx * C + t).toNat], by
      simp only [readByte]; rw [if_pos (by omega)]; exact List.getElem?_eq_getElem hlt⟩
  have key : ∀ i t, 0 ≤ i → i < h → 0 ≤ t → t < w * C →
      rowSource s P SP C x y sx sy ((i + y) * P + x * C + t)
        = (readByte (some s) ((i + sy) * SP + sx * C + t)).getD 0 := by
    intro i t hi0 hi ht0 ht
    obtain ⟨r1, r2, r3, r4, r5⟩ := row_bounds H W C P (i + y) x w (by omega) (by omega)
      hx hw hxw hC hP
    have e : (i + y) * P + x * C + t = (i + y) * P + (x * C + t) := by ring
    obtain ⟨e1, e2⟩ := addr_decode P (i + y) (x * C + t) (by omega) (by omega)
    have e3 : (i + y - y + sy) = i + sy := by ring
    have e4 : x * C + t - x * C = t := by ring
    simp only [rowSource, e, e1, e2, e3, e4]
  obtain ⟨d', hl, he⟩ := forLoop_eff h d.length
    (fun i d => memcpy d ((i + y) * P + x * C) s ((i + sy) * SP + sx * C) (w * C))
    (fun i idx => (i + y) * P + x * C ≤ idx ∧ idx < (i + y) * P + x * C + w * C)
    (rowSource s P SP C x y sx sy)
    (fun i d0 hi0 hi hdl => by
      obtain ⟨r1, r2, r3, r4, r5⟩ := row_bounds H W C P (i + y) x w (by omega) (by omega)
        hx hw hxw hC hP
      obtain ⟨q1, q2, q3, q4, q5⟩ := row_bounds SH SW C SP (i + sy) sx w (by omega) (by omega)
        hsx hw hsxw hC hSP
      refine memcpy_eff d0 s _ _ _ _ (by omega) (by omega) r2 (by omega) (by omega) ?_
      intro t ht0 ht
      obtain ⟨b, hb⟩ := srcRead i t hi0 hi ht0 ht
      rw [key i t hi0 hi ht0 ht, hb]; rfl) d rfl
  refine ⟨d', hl, he.1, ?_, ?_⟩
  · intro i t hi0 hi ht0 ht
    obtain ⟨b, hb⟩ := srcRead i t hi0 hi ht0 ht
    refine ⟨b, hb, ?_⟩
    rw [(he.2 _).1 ⟨i, hi0, hi, by omega, by omega⟩, key i t hi0 hi ht0 ht, hb]; rfl
  · intro idx hn
    refine (he.2 idx).2 ?_
    rintro ⟨i, hi0, hi, h1, h2⟩
    exact hn ⟨i, idx - ((i + y) * P + x * C), hi0, hi, by omega, by omega, by ring⟩

namespace TextureImage

theorem copyFrom_eq (D S : TextureImage) (x y srcx srcy : Int) :
    copyFrom D S x y srcx srcy =
      if S.mBytesPerPixel ≠ D.mBytesPerPixel then some D
      else if min (D.mWidth - (clipAxis x srcx).1) (S.mWidth - (clipAxis x srcx).2) ≤ 0 ∨
          min (D.mHeight - (clipAxis y srcy).1) (S.mHeight - (clipAxis y srcy).2) ≤ 0 then
        some D
      else
        match D.mData, S.mData with
        | some d, some s =>
          match forLoop (min (D.mHeight - (clipAxis y srcy).1) (S.mHeight - (clipAxis y srcy).2))
            (fun i d =>
              memcpy d ((i + (clipAxis y srcy).1) * D.mPitch
                  + (clipAxis x srcx).1 * D.mBytesPerPixel)
                s ((i + (clipAxis y srcy).2) * S.mPitch
                  + (clipAxis x srcx).2 * S.mBytesPerPixel)
                (min (D.mWidth - (clipAxis x srcx).1) (S.mWidth - (clipAxis x srcx).2)
                  * D.mBytesPerPixel)) d with
          | some d' => some { D with mData := some d' }
          | none => none
        | _, _ => none := by
  unfold copyFrom clipAxis
  by_cases hx : x < 0 <;> by_cases hy : y < 0 <;> simp only [hx, hy, if_true, if_false]

theorem clipAxis_nonneg (p srcp : Int) : 0 ≤ (clipAxis p srcp).1 ∧ 0 ≤ (clipAxis p srcp).2 := by
  unfold clipAxis
  dsimp only
  by_cases hp : p < 0
  · simp only [if_pos hp]
    by_cases hs : srcp - p < 0
    · rw [if_pos hs]; constructor <;> dsimp only <;> omega
    · rw [if_neg hs]; constructor <;> dsimp only <;> omega
  · simp only [if_neg hp]
    by_cases hs : srcp < 0
    · rw [if_pos hs]; constructor <;> dsimp only <;> omega
    · rw [if_neg hs]; constructor <;> dsimp only <;> omega


theorem copyFrom_spec (D S : TextureImage) (x y srcx srcy : Int) (hD : D.Valid)
    (hS : S.Valid) (hbpp : S.mBytesPerPixel = D.mBytesPerPixel)
    (x' sx' y' sy' w h : Int) (hcx : clipAxis x srcx = (x', sx'))
    (hcy : clipAxis y srcy = (y', sy'))
    (hw : w = min (D.mWidth - x') (S.mWidth - sx'))
    (hh : h = min (D.mHeight - y') (S.mHeight - sy')) :
    (w ≤ 0 ∨ h ≤ 0 → copyFrom D S x y srcx srcy = some D) ∧
    (0 < w → 0 < h → ∃ d', copyFrom D S x y srcx srcy = some { D with mData := some d' } ∧
      d'.length = D.bytes.length ∧
      (∀ i j k, 0 ≤ i → i < h → 0 ≤ j → j < w → 0 ≤ k → k < D.mBytesPerPixel →
        ∃ b, readByte S.mData ((sy' + i) * S.mPitch + (sx' + j) * S.mBytesPerPixel + k)
            = some b ∧
          readByte (some d') ((y' + i) * D.mPitch + (x' + j) * D.mBytesPerPixel + k)
            = some b) ∧
      (∀ idx, (¬ ∃ i j k, 0 ≤ i ∧ i < h ∧ 0 ≤ j ∧ j < w ∧ 0 ≤ k ∧ k < D.mBytesPerPixel ∧
          idx = (y' + i) * D.mPitch + (x' + j) * D.mBytesPerPixel + k) →
        readByte (some d') idx = readByte D.mData idx)) := by
  have nx := clipAxis_nonneg x srcx
  have ny := clipAxis_nonneg y srcy
  rw [hcx] at nx; rw [hcy] at ny
  dsimp only at nx ny
  rw [copyFrom_eq, hcx, hcy]
  dsimp only
  rw [← hw, ← hh, if_neg (by simp [hbpp])]
  constructor
  · intro hwh
    rw [if_pos hwh]
  · intro hw0 hh0
    rw [if_neg (by omega)]
    obtain ⟨dw, dh, dc, dP, dlen, dnull⟩ := hD
    obtain ⟨sw, sh, sc, sP, slen, snull⟩ := hS
    cases hdd : D.mData with
    | none => have := (dnull hdd).1; omega
    | some d =>
      cases hsd : S.mData with
      | none => have := (snull hsd).1; omega
      | some s =>
        unfold bytes at dlen slen ⊢
        simp only [hdd, hsd, Option.getD_some] at dlen slen ⊢
        rw [hbpp] at sP ⊢
        obtain ⟨d', hl, hlen, hin, hout⟩ := copyRows_spec d s D.mHeight D.mWidth D.mPitch
          S.mHeight S.mWidth S.mPitch D.mBytesPerPixel x' y' sx' sy' w h dlen slen dP sP dc
          nx.1 ny.1 nx.2 ny.2 (by omega) (by omega) (by omega) (by omega) (by omega)
        refine ⟨d', ?_, hlen, ?_, ?_⟩
        · dsimp only
          rw [hl]
        · intro i j k hi0 hi hj0 hj hk0 hk
          obtain ⟨t0, t1, _, _⟩ := addr_bounds 1 w D.mBytesPerPixel (w * D.mBytesPerPixel)
            0 j k (le_refl _) (by norm_num) hj0 hj hk0 hk (le_refl _)
          obtain ⟨b, hb1, hb2⟩ := hin i (j * D.mBytesPerPixel + k) hi0 hi t0 t1
          have e1 : (sy' + i) * S.mPitch + (sx' + j) * D.mBytesPerPixel + k
              = (i + sy') * S.mPitch + sx' * D.mBytesPerPixel + (j * D.mBytesPerPixel + k) := by
            ring
          have e2 : (y' + i) * D.mPitch + (x' + j) * D.mBytesPerPixel + k
              = (i + y') * D.mPitch + x' * D.mBytesPerPixel + (j * D.mBytesPerPixel + k) := by
            ring
          exact ⟨b, by rw [e1]; exact hb1, by rw [e2]; exact hb2⟩
        · intro idx hn
          refine hout idx ?_
          rintro ⟨i, t, hi0, hi, ht0, ht, e⟩
          have hC : 0 < D.mBytesPerPixel := by
            rcases lt_or_eq_of_le dc with h | h
            · exact h
            · rw [← h] at ht; omega
          refine hn ⟨i, t / D.mBytesPerPixel, t % D.mBytesPerPixel, hi0, hi,
            Int.ediv_nonneg ht0 dc, Int.ediv_lt_of_lt_mul hC ht,
            Int.emod_nonneg _ (by omega), Int.emod_lt_of_pos _ hC, ?_⟩
          have := Int.ediv_add_emod t D.mBytesPerPixel
          have e3 : (y' + i) * D.mPitch + (x' + t / D.mBytesPerPixel) * D.mBytesPerPixel
              + t % D.mBytesPerPixel = (i + y') * D.mPitch + x' * D.mBytesPerPixel
              + (D.mBytesPerPixel * (t / D.mBytesPerPixel) + t % D.mBytesPerPixel) := by ring
          rw [e3, this, e]


theorem alignedPitch_dvd (p a : Int) (hp : 0 ≤ p) (ha : 1 ≤ a) :
    a ∣ alignedPitch p a ∧ p ≤ alignedPitch p a ∧
      (∀ m, a ∣ m → p ≤ m → alignedPitch p a ≤ m) := by
  have hm0 : 0 ≤ p % a := Int.emod_nonneg p (by omega)
  have hm1 : p % a < a := Int.emod_lt_of_pos p (by omega)
  have hdm : a * (p / a) + p % a = p := Int.ediv_add_emod p a
  unfold alignedPitch
  rw [Int.tmod_eq_emod hp (by omega)]
  by_cases h0 : p % a = 0
  · rw [if_pos h0]
    exact ⟨Int.dvd_of_emod_eq_zero h0, le_refl _, fun m _ hm => hm⟩
  · rw [if_neg h0]
    have e : p + a - p % a = a * (p / a + 1) := by
      have : a * (p / a + 1) = a * (p / a) + a := by ring
      omega
    refine ⟨by rw [e]; exact dvd_mul_right _ _, by omega, ?_⟩
    rintro m ⟨c, rfl⟩ hm
    rw [e]
    have hlt : a * (p / a) < a * c := by omega
    have hc : p / a < c := lt_of_mul_lt_mul_left hlt (by omega)
    exact mul_le_mul_of_nonneg_left (by omega) (by omega)

theorem alignedPitch_of_tmod (q : Int) (h : Int.tmod q 4 = 0) : alignedPitch q 4 = q := by
  unfold alignedPitch; rw [if_pos h]

theorem alignedPitch_idem (p : Int) (hp : 0 ≤ p) :
    alignedPitch (alignedPitch p 4) 4 = alignedPitch p 4 := by
  obtain ⟨_, _, h3⟩ := alignedPitch_four p hp
  exact alignedPitch_of_tmod _ h3

theorem ctor_valid (w h c : Int) (hw : 0 ≤ w) (hh : 0 ≤ h) (hc : 0 ≤ c) (d : List Byte)
    (hd : (d.length : Int) = h * alignedPitch (w * c)) :
    Valid { mWidth := w, mHeight := h, mBytesPerPixel := c, mPitch := alignedPitch (w * c),
            mData := some d } ∧
    Layout { mWidth := w, mHeight := h, mBytesPerPixel := c, mPitch := alignedPitch (w * c),
             mData := some d } := by
  obtain ⟨a1, _, a3⟩ := alignedPitch_four (w * c) (mul_nonneg hw hc)
  refine ⟨⟨hw, hh, hc, a1, hd, fun h => by simp at h⟩, rfl, a1, a3, hd⟩

theorem empty_false {B : TextureImage} (hV : B.Valid) (he : B.empty = false) :
    0 < B.mWidth ∧ 0 < B.mHeight ∧ 0 < B.mBytesPerPixel := by
  obtain ⟨hw, hh, hc, _⟩ := hV
  simp only [empty, Bool.or_eq_false_iff, beq_eq_false_iff_ne, ne_eq] at he
  obtain ⟨⟨h1, h2⟩, h3⟩ := he
  omega

theorem resample_spec (sample : Int → Int → Int → Int) (B : TextureImage) (w h : Int)
    (hV : B.Valid) (hw : 0 ≤ w) (hh : 0 ≤ h)
    (hs : B.empty = false → ∀ i n m, 0 ≤ i → i < n → 0 < m →
      0 ≤ sample i n m ∧ sample i n m < m) :
    ∃ d, resample sample B w h = some
        { mWidth := w, mHeight := h, mBytesPerPixel := B.mBytesPerPixel,
          mPitch := alignedPitch (w * B.mBytesPerPixel), mData := some d } ∧
      (d.length : Int) = h * alignedPitch (w * B.mBytesPerPixel) ∧
      (∀ i j k, 0 ≤ i → i < h → 0 ≤ j → j < w → 0 ≤ k → k < B.mBytesPerPixel →
        ∃ b, (if B.empty then some 0 else readByte B.mData
            (sample i h B.mHeight * B.mPitch + sample j w B.mWidth * B.mBytesPerPixel + k))
              = some b ∧
          readByte (some d) (i * alignedPitch (w * B.mBytesPerPixel)
            + j * B.mBytesPerPixel + k) = some b) ∧
      (∀ idx, (¬ ∃ i j k, 0 ≤ i ∧ i < h ∧ 0 ≤ j ∧ j < w ∧ 0 ≤ k ∧ k < B.mBytesPerPixel ∧
          idx = i * alignedPitch (w * B.mBytesPerPixel) + j * B.mBytesPerPixel + k) →
        0 ≤ idx → idx < h * alignedPitch (w * B.mBytesPerPixel) →
        readByte (some d) idx = some 0) := by
  have hV' := hV
  obtain ⟨_, _, hc, hP, hlen, _⟩ := hV'
  have hwc : 0 ≤ w * B.mBytesPerPixel := mul_nonneg hw hc
  obtain ⟨a1, a2, a3⟩ := alignedPitch_four _ hwc
  have hsz : 0 ≤ h * alignedPitch (w * B.mBytesPerPixel) := mul_nonneg hh (by omega)
  have hsrc : ∀ i j k, 0 ≤ i → i < h → 0 ≤ j → j < w → 0 ≤ k → k < B.mBytesPerPixel →
      ∃ b, (if B.empty then some 0 else readByte B.mData
        (sample i h B.mHeight * B.mPitch + sample j w B.mWidth * B.mBytesPerPixel + k))
          = some b := by
    intro i j k hi0 hi hj0 hj hk0 hk
    cases he : B.empty with
    | true => exact ⟨0, by simp⟩
    | false =>
      obtain ⟨e1, e2, e3⟩ := empty_false hV he
      obtain ⟨s1, s2⟩ := hs he i h B.mHeight hi0 hi e2
      obtain ⟨s3, s4⟩ := hs he j w B.mWidth hj0 hj e1
      obtain ⟨b, hb⟩ := hV.read _ _ k s1 s2 s3 s4 hk0 hk
      exact ⟨b, by simp only [Bool.false_eq_true, if_false]; exact hb⟩
  obtain ⟨d, hd, hl, hin, hout⟩ := fill_spec h w B.mBytesPerPixel
    (alignedPitch (w * B.mBytesPerPixel))
    (fun i j k d => do
        let i1 := sample i h B.mHeight
        let j1 := sample j w B.mWidth
        let v ← if B.empty then some 0
          else readByte B.mData (i1 * B.mPitch + j1 * B.mBytesPerPixel + k)
        writeByte d (i * alignedPitch (w * B.mBytesPerPixel) + j * B.mBytesPerPixel + k) v)
    (fun i j k => (if B.empty then some 0 else readByte B.mData
        (sample i h B.mHeight * B.mPitch + sample j w B.mWidth * B.mBytesPerPixel + k)).getD 0)
    a1 (List.replicate (h * alignedPitch (w * B.mBytesPerPixel)).toNat 0)
    (by simp only [List.length_replicate]; omega)
    (fun i j k d hi0 hi hj0 hj hk0 hk => by
      obtain ⟨b, hb⟩ := hsrc i j k hi0 hi hj0 hj hk0 hk
      cases he : B.empty with
      | true =>
        simp only [he, if_true, Option.bind_eq_bind, Option.some_bind, Option.getD_some]
      | false =>
        simp only [he, Bool.false_eq_true, if_false] at hb
        simp only [he, Bool.false_eq_true, if_false, hb, Option.bind_eq_bind,
          Option.some_bind, Option.getD_some])
  refine ⟨d, ?_, ?_, ?_, ?_⟩
  · simp only [resample, ctor_eq _ _ _ hh hwc, Option.bind_eq_bind, Option.some_bind]
    simp only [Option.bind_eq_bind, Option.some_bind] at hd
    rw [hd]; rfl
  · rw [hl]; simp only [List.length_replicate]; omega
  · intro i j k hi0 hi hj0 hj hk0 hk
    obtain ⟨b, hb⟩ := hsrc i j k hi0 hi hj0 hj hk0 hk
    refine ⟨b, hb, ?_⟩
    rw [hin i j k hi0 hi hj0 hj hk0 hk, hb]; rfl
  · intro idx hn h0 h1
    rw [hout idx hn]
    exact readByte_replicate _ _ _ h0 (by omega)


/-! ## Arithmetic of the box filter -/

theorem ediv_ediv_nonneg (a s : Int) (ha : 0 ≤ a) (hs : 0 ≤ s) : a / s / s = a / (s * s) := by
  obtain ⟨n, rfl⟩ := Int.eq_ofNat_of_zero_le ha
  obtain ⟨m, rfl⟩ := Int.eq_ofNat_of_zero_le hs
  norm_cast
  exact Nat.div_div_eq_div_mul n m m

theorem toUChar_val (q : Int) (h0 : 0 ≤ q) (h1 : q ≤ 255) : ((toUChar q).val : Int) = q := by
  simp only [toUChar]; omega

theorem blockSum_bounds (B : TextureImage) (s i j k : Int) :
    0 ≤ B.blockSum s i j k ∧ B.blockSum s i j k ≤ (s.toNat : Int) * ((s.toNat : Int) * 255) := by
  unfold blockSum
  constructor
  · exact Finset.sum_nonneg (fun _ _ => Finset.sum_nonneg (fun _ _ => by omega))
  · have inner : ∀ i1 ∈ Finset.range s.toNat,
        (∑ j1 in Finset.range s.toNat,
          (((B.color (j * s + j1) (i * s + i1) k).getD 0).val : Int))
          ≤ (s.toNat : Int) * 255 := by
      intro i1 _
      have h := Finset.sum_le_card_nsmul (Finset.range s.toNat)
        (fun j1 : Nat => (((B.color (j * s + j1) (i * s + i1) k).getD 0).val : Int)) 255
        (fun j1 _ => by
          have := ((B.color (j * s + j1) (i * s + i1) k).getD 0).isLt
          show (((B.color (j * s + j1) (i * s + i1) k).getD 0).val : Int) ≤ 255
          omega)
      simpa [Finset.card_range, nsmul_eq_mul] using h
    have h := Finset.sum_le_card_nsmul (Finset.range s.toNat) _ _ inner
    simpa [Finset.card_range, nsmul_eq_mul] using h

theorem blockSum_const (B : TextureImage) (s i j k : Int) (v : Byte)
    (hv : ∀ i1 j1 : Int, 0 ≤ i1 → i1 < s → 0 ≤ j1 → j1 < s →
      B.color (j * s + j1) (i * s + i1) k = some v) :
    B.blockSum s i j k = (s.toNat : Int) * ((s.toNat : Int) * (v.val : Int)) := by
  unfold blockSum
  have inner : ∀ i1 ∈ Finset.range s.toNat,
      (∑ j1 in Finset.range s.toNat,
        (((B.color (j * s + j1) (i * s + i1) k).getD 0).val : Int))
        = (s.toNat : Int) * (v.val : Int) := by
    intro i1 h1
    rw [Finset.mem_range] at h1
    have hc : ∀ j1 ∈ Finset.range s.toNat,
        (((B.color (j * s + j1) (i * s + i1) k).getD 0).val : Int) = (v.val : Int) := by
      intro j1 h2
      rw [Finset.mem_range] at h2
      rw [hv i1 j1 (by omega) (by omega) (by omega) (by omega)]
      rfl
    rw [Finset.sum_congr rfl hc, Finset.sum_const, Finset.card_range, nsmul_eq_mul]
  rw [Finset.sum_congr rfl inner, Finset.sum_const, Finset.card_range, nsmul_eq_mul]

theorem mean_of_sum (S s : Int) (hs : 1 ≤ s) (h0 : 0 ≤ S) (h1 : S ≤ s * (s * 255))
    (hr : 255 * s * s ≤ INT_MAX) :
    ((toUChar (Int.tdiv (Int.tdiv (wrapInt S) s) s)).val : Int) = S / (s * s) := by
  have e : s * (s * 255) = 255 * s * s := by ring
  rw [wrapInt_of_range S (by omega) (by omega), Int.tdiv_eq_ediv h0 (by omega),
    Int.tdiv_eq_ediv (Int.ediv_nonneg h0 (by omega)) (by omega),
    ediv_ediv_nonneg S s h0 (by omega)]
  have hss : 0 < s * s := mul_pos (by omega) (by omega)
  have q0 : 0 ≤ S / (s * s) := Int.ediv_nonneg h0 (by omega)
  have q1 : S / (s * s) < 256 := by
    apply Int.ediv_lt_of_lt_mul hss
    have : 256 * (s * s) = 255 * s * s + s * s := by ring
    omega
  exact toUChar_val _ q0 (by omega)


/-! ## C2: `copyFrom` with a negative offset -/

/-- C2. Negative-offset clipping of `copyFrom` matches pre-clipped coordinates: for `x < 0`
the call with `(x, y, srcx, srcy)` has the same outcome as the call with
`(0, y, srcx - x, srcy)`, and for `y < 0` the same outcome as the call with
`(x, 0, srcx, srcy - y)`. -/
theorem copyFrom_preclipped (D S : TextureImage) (x y srcx srcy : Int) :
    (x < 0 → copyFrom D S x y srcx srcy = copyFrom D S 0 y (srcx - x) srcy) ∧
    (y < 0 → copyFrom D S x y srcx srcy = copyFrom D S x 0 srcx (srcy - y)) := by
  constructor
  · intro hx
    rw [copyFrom_eq, copyFrom_eq]
    have : clipAxis x srcx = clipAxis 0 (srcx - x) := by
      unfold clipAxis; simp only [hx, if_true, lt_irrefl, if_false]
    rw [this]
  · intro hy
    rw [copyFrom_eq, copyFrom_eq]
    have : clipAxis y srcy = clipAxis 0 (srcy - y) := by
      unfold clipAxis; simp only [hy, if_true, lt_irrefl, if_false]
    rw [this]

/-- Instance of C2: with a 4 × 4 source and a 4 × 4 destination, `copyFrom(S, -2, 0, 0, 0)`
equals `copyFrom(S, 0, 0, 2, 0)`; the block copied has width 2: columns 0 and 1 of the
destination receive columns 2 and 3 of the source, columns 2 and 3 stay zero. -/
theorem copyFrom_preclipped_witness :
    (-2 : Int) < 0 ∧
      copyFrom zero4x4 ramp4x4 (-2) 0 0 0 = copyFrom zero4x4 ramp4x4 0 0 (0 - -2) 0 ∧
      copyFrom zero4x4 ramp4x4 0 0 2 0 = some
        { mWidth := 4, mHeight := 4, mBytesPerPixel := 3, mPitch := 12,
          mData := some [6, 7, 8, 9, 10, 11, 0, 0, 0, 0, 0, 0,
            18, 19, 20, 21, 22, 23, 0, 0, 0, 0, 0, 0,
            30, 31, 32, 33, 34, 35, 0, 0, 0, 0, 0, 0,
            42, 43, 44, 45, 46, 47, 0, 0, 0, 0, 0, 0] } :=
  ⟨by decide, (copyFrom_preclipped zero4x4 ramp4x4 (-2) 0 0 0).1 (by decide), by decide⟩


/-! ## C3, C4, C5: `shrink` and `enlarge` -/

theorem white2902_valid : white2902.Valid := by
  refine ⟨by decide, by decide, by decide, by decide, ?_, ?_⟩
  · simp only [bytes, white2902, Option.getD_some, List.length_replicate]
    norm_num
  · intro h; exact absurd h (by simp only [white2902]; exact fun h => Option.noConfusion h)

theorem white2902_color (x y : Int) (hx0 : 0 ≤ x) (hx : x < 2902) (hy0 : 0 ≤ y)
    (hy : y < 2902) : white2902.color x y 0 = some 255 := by
  simp only [color, white2902]
  exact readByte_replicate _ _ _ (by omega) (by push_cast; omega)

theorem white2902_sum : white2902.blockSum 2902 0 0 0 = 2147509020 := by
  rw [blockSum_const white2902 2902 0 0 0 255 (fun i1 j1 a1 a2 a3 a4 =>
    white2902_color _ _ (by omega) (by omega) (by omega) (by omega))]
  have e : (((255 : Byte).val : Nat) : Int) = 255 := rfl
  rw [e]
  norm_num

theorem overflow_value :
    toUChar (Int.tdiv (Int.tdiv (wrapInt 2147509020) 2902) 2902) = 2 := by
  decide

/-- C3, as stated, fails: `shrink(2902)` of the all-white 2902 × 2902 RGB buffer returns a
1 × 1 buffer whose first byte is 2, while the truncated mean of the block is 255: the sum
`2902 * 2902 * 255` of the block does not fit into the 32-bit accumulator. -/
theorem shrink_mean_overflow :
    ∃ R, shrink white2902 2902 = some R ∧ R.mWidth = 1 ∧ R.mHeight = 1 ∧
      R.color 0 0 0 = some 2 ∧ white2902.blockSum 2902 0 0 0 / (2902 * 2902) = 255 := by
  obtain ⟨d, hR, _, hin, _⟩ := shrink_spec white2902 2902 white2902_valid (by norm_num)
  have hw : white2902.mWidth = 2902 := rfl
  have hh : white2902.mHeight = 2902 := rfl
  have hc : white2902.mBytesPerPixel = 3 := rfl
  rw [hw, hh, hc] at hR hin
  refine ⟨_, hR, by norm_num, by norm_num, ?_, by rw [white2902_sum]; norm_num⟩
  have h := hin 0 0 0 (le_refl _) (by norm_num) (le_refl _) (by norm_num) (le_refl _)
    (by norm_num)
  rw [white2902_sum, overflow_value] at h
  simp only [color]
  exact h

/-- C3, amended: for every buffer `B` of the data model and every scale `s ≥ 1` with
`255 * s * s` within `int` range, `shrink(s)` returns a buffer of width `B.width / s`,
height `B.height / s` and the bytes per pixel of `B`, in which the byte of row `i`, column
`j`, channel `k` is `floor(SUM / (s * s))`, `SUM` being the sum of the `s * s` source bytes of
channel `k` at rows `i*s .. i*s+s-1` and columns `j*s .. j*s+s-1`, all of which lie in `B`. -/
theorem shrink_box_filter (B : TextureImage) (s : Int) (hV : B.Valid) (hs : 1 ≤ s)
    (hr : 255 * s * s ≤ INT_MAX) :
    ∃ R, shrink B s = some R ∧ R.mWidth = B.mWidth / s ∧ R.mHeight = B.mHeight / s ∧
      R.mBytesPerPixel = B.mBytesPerPixel ∧
      ∀ i j k, 0 ≤ i → i < B.mHeight / s → 0 ≤ j → j < B.mWidth / s → 0 ≤ k →
        k < B.mBytesPerPixel →
        (∀ i1 j1 : Int, 0 ≤ i1 → i1 < s → 0 ≤ j1 → j1 < s →
          i * s + i1 < B.mHeight ∧ j * s + j1 < B.mWidth ∧
            ∃ v, B.color (j * s + j1) (i * s + i1) k = some v) ∧
        ∃ b, R.color j i k = some b ∧ (b.val : Int) = B.blockSum s i j k / (s * s) := by
  obtain ⟨d, hR, _, hin, _⟩ := shrink_spec B s hV hs
  refine ⟨_, hR, rfl, rfl, rfl, ?_⟩
  intro i j k hi0 hi hj0 hj hk0 hk
  constructor
  · intro i1 j1 a1 a2 a3 a4
    obtain ⟨r0, r1⟩ := shrink_src_bound _ s i i1 hs hi0 hi a1 a2
    obtain ⟨c0, c1⟩ := shrink_src_bound _ s j j1 hs hj0 hj a3 a4
    exact ⟨r1, c1, hV.read _ _ k r0 r1 c0 c1 hk0 hk⟩
  · refine ⟨_, hin i j k hi0 hi hj0 hj hk0 hk, ?_⟩
    obtain ⟨b0, b1⟩ := blockSum_bounds B s i j k
    have e : ((s.toNat : Nat) : Int) = s := by omega
    rw [e] at b1
    exact mean_of_sum _ s hs b0 b1 hr

/-- Instance of C3 (amended): halving `rgb2x2`. -/
theorem shrink_box_filter_witness :
    rgb2x2.Valid ∧ (1 : Int) ≤ 2 ∧ 255 * 2 * 2 ≤ INT_MAX ∧
      ∃ R, shrink rgb2x2 2 = some R ∧ R.mWidth = 1 ∧ R.mHeight = 1 ∧
        ∃ b, R.color 0 0 0 = some b ∧ (b.val : Int) = rgb2x2.blockSum 2 0 0 0 / (2 * 2) := by
  refine ⟨by decide, by decide, by decide, ?_⟩
  obtain ⟨R, h1, h2, h3, _, h5⟩ :=
    shrink_box_filter rgb2x2 2 (by decide) (by decide) (by decide)
  exact ⟨R, h1, h2, h3,
    (h5 0 0 0 (by decide) (by decide) (by decide) (by decide) (by decide) (by decide)).2⟩

theorem withData_valid (D : TextureImage) (d : List Byte) (hD : D.Valid) (hL : D.Layout)
    (hd : d.length = D.bytes.length) :
    Valid { D with mData := some d } ∧ Layout { D with mData := some d } := by
  obtain ⟨a1, a2, a3, a4, a5, _⟩ := hD
  obtain ⟨b1, b2, b3, _⟩ := hL
  have e : ((bytes { D with mData := some d }).length : Int) = D.mHeight * D.mPitch := by
    show ((d.length : Nat) : Int) = _
    rw [hd]; exact a5
  exact ⟨⟨a1, a2, a3, a4, e, fun h => by simp at h⟩, b1, b2, b3, e⟩

theorem copyFrom_layout (D S : TextureImage) (x y srcx srcy : Int) (hD : D.Valid)
    (hL : D.Layout) (hS : S.Valid) :
    ∃ D', copyFrom D S x y srcx srcy = some D' ∧ D'.Valid ∧ D'.Layout := by
  by_cases hbpp : S.mBytesPerPixel = D.mBytesPerPixel
  · obtain ⟨h1, h2⟩ := copyFrom_spec D S x y srcx srcy hD hS hbpp
      (clipAxis x srcx).1 (clipAxis x srcx).2 (clipAxis y srcy).1 (clipAxis y srcy).2
      (min (D.mWidth - (clipAxis x srcx).1) (S.mWidth - (clipAxis x srcx).2))
      (min (D.mHeight - (clipAxis y srcy).1) (S.mHeight - (clipAxis y srcy).2))
      rfl rfl rfl rfl
    by_cases hwh : min (D.mWidth - (clipAxis x srcx).1) (S.mWidth - (clipAxis x srcx).2) ≤ 0 ∨
        min (D.mHeight - (clipAxis y srcy).1) (S.mHeight - (clipAxis y srcy).2) ≤ 0
    · exact ⟨D, h1 hwh, hD, hL⟩
    · rw [not_or, not_le, not_le] at hwh
      obtain ⟨d', hc, hl, _, _⟩ := h2 hwh.1 hwh.2
      obtain ⟨v1, v2⟩ := withData_valid D d' hD hL hl
      exact ⟨_, hc, v1, v2⟩
  · refine ⟨D, ?_, hD, hL⟩
    rw [copyFrom_eq, if_pos hbpp]

/-! ## C10: the PNG normaliser -/

/-- C10 at a failing input: with `checkSize = false` and `masked = false`, `loadFromPNG` of
a decoded 3 × 1 RGB image leaves an empty buffer empty, whatever the contents of fresh memory:
the test `(1 << int(log2(surface->w))) != surface->w` is not guarded by `checkSize`.  The
same call on a 2 × 1 RGB image copies the pixels through. -/
theorem loadFromPNG_rejects_width3 (uninit : Nat → Byte) :
    loadFromPNG {} (some rgbRow3) uninit false false = some {} ∧
    loadFromPNG {} (some rgbRow2) uninit false false = some
      { mWidth := 2, mHeight := 1, mBytesPerPixel := 3, mPitch := 8,
        mData := some [1, 2, 3, 4, 5, 6, uninit 6, uninit 7] } :=
  ⟨rfl, rfl⟩

end TextureImage

/-! ## Lemmas on the normalisers -/

theorem readByte_some (l : List Byte) (idx : Int) (h0 : 0 ≤ idx) (h1 : idx < l.length) :
    ∃ v, readByte (some l) idx = some v := by
  have hlt : idx.toNat < l.length := by omega
  exact ⟨l[idx.toNat], by
    simp only [readByte]; rw [if_pos h0]; exact List.getElem?_eq_getElem hlt⟩

namespace TextureImage

theorem ilog2Aux_pow (e : Nat) : ∀ fuel, e ≤ fuel → ilog2Aux fuel (2 ^ e) = e := by
  induction e with
  | zero =>
    intro fuel _
    cases fuel with
    | zero => rfl
    | succ f => simp [ilog2Aux]
  | succ n ih =>
    intro fuel hf
    cases fuel with
    | zero => omega
    | succ f =>
      have h2 : 2 ≤ 2 ^ (n + 1) := by
        have : 1 ≤ 2 ^ n := Nat.one_le_two_pow
        rw [pow_succ]; omega
      have hd : 2 ^ (n + 1) / 2 = 2 ^ n := by
        rw [pow_succ]; exact Nat.mul_div_cancel _ (by norm_num)
      simp only [ilog2Aux]
      rw [if_pos h2, hd, ih f (by omega)]

theorem ilog2_pow (e : Nat) : ilog2 ((2 : Int) ^ e) = some e := by
  have hpos : (0 : Int) < 2 ^ e := by positivity
  have hn : ((2 : Int) ^ e).toNat = 2 ^ e := by
    have : ((2 : Int) ^ e) = ((2 ^ e : Nat) : Int) := by push_cast; rfl
    rw [this, Int.toNat_natCast]
  simp only [ilog2]
  rw [if_neg (by omega), hn, ilog2Aux_pow e _ (Nat.lt_two_pow e).le]

theorem ilog2_pos (w : Int) (hw : 1 ≤ w) : ∃ k, ilog2 w = some k := by
  simp only [ilog2]
  rw [if_neg (by omega)]
  exact ⟨_, rfl⟩

theorem newArray_eq (uninit : Nat → Byte) (n : Int) (hn : 0 ≤ n) :
    ∃ l, newArray uninit n = some l ∧ l.length = n.toNat := by
  simp only [newArray]
  rw [if_neg (by omega)]
  exact ⟨_, rfl, by simp⟩

end TextureImage

namespace TextureImage

/-- C12. Validation failures of the PNG normaliser leave the destination empty: for a decoded
image of positive width, `loadFromPNG` on an empty buffer returns the empty buffer (all fields
0, no array) when (a) `checkSize` is set and the image is not square or its side is not a
power of two, or (b) `masked` is set and the image has 3 or 4 bytes per pixel, or (c) its
bytes per pixel is not 1, 3 or 4. -/
theorem loadFromPNG_validation_failure (s : SDL_Surface) (uninit : Nat → Byte)
    (checkSize masked : Bool) (hw : 1 ≤ s.w)
    (hcase : (checkSize = true ∧ (s.w ≠ s.h ∨ ¬ ∃ e : Nat, s.w = 2 ^ e)) ∨
      (masked = true ∧ (s.BytesPerPixel = 3 ∨ s.BytesPerPixel = 4)) ∨
      (s.BytesPerPixel ≠ 1 ∧ s.BytesPerPixel ≠ 3 ∧ s.BytesPerPixel ≠ 4)) :
    loadFromPNG {} (some s) uninit checkSize masked = some {} := by
  obtain ⟨k, hk⟩ := ilog2_pos s.w hw
  simp only [loadFromPNG, hk, Option.bind_eq_bind, Option.some_bind]
  by_cases c1 : (checkSize && decide (s.w ≠ s.h)) = true
  · rw [if_pos c1]; rfl
  · rw [if_neg c1]
    by_cases c2 : (2 : Int) ^ k = s.w
    · have hd : decide ((2 : Int) ^ k ≠ s.w) = false := by simp [c2]
      simp only [Option.some_bind, hd, Bool.false_eq_true, if_false]
      rcases hcase with ⟨hc, h | h⟩ | ⟨hm, hb⟩ | ⟨h1, h3, h4⟩
      · exact absurd (by simp [hc, h]) c1
      · exact absurd ⟨k, c2.symm⟩ h
      · have h1 : s.BytesPerPixel ≠ 1 := by omega
        rw [if_neg h1, if_pos hb, if_pos hm]
      · rw [if_neg h1, if_neg (by omega)]
    · have hd : decide ((2 : Int) ^ k ≠ s.w) = true := by simp [c2]
      simp only [Option.some_bind, hd, if_true]

/-- Instance of C12: the three kinds of rejected image. -/
theorem loadFromPNG_validation_failure_witness :
    (1 : Int) ≤ rgbRow2.w ∧
      loadFromPNG {} (some rgbRow2) (fun _ => 0) true false = some {} ∧
      loadFromPNG {} (some rgbRow2) (fun _ => 0) false true = some {} ∧
      loadFromPNG {} (some { rgbRow2 with BytesPerPixel := 2 }) (fun _ => 0) false false
        = some {} :=
  ⟨by decide,
    loadFromPNG_validation_failure rgbRow2 _ true false (by decide)
      (Or.inl ⟨rfl, Or.inl (by decide)⟩),
    loadFromPNG_validation_failure rgbRow2 _ false true (by decide)
      (Or.inr (Or.inl ⟨rfl, Or.inl rfl⟩)),
    loadFromPNG_validation_failure { rgbRow2 with BytesPerPixel := 2 } _ false false
      (by decide) (Or.inr (Or.inr ⟨by decide, by decide, by decide⟩))⟩


end TextureImage

/-! ## Lemmas on the mip pyramid -/

namespace TextureImage

theorem assign_eq (self r : TextureImage) (uninit : Nat → Byte) (d : List Byte)
    (hd : r.mData = some d) (hlen : (d.length : Int) = r.mHeight * r.mPitch) :
    assign self r uninit = some r := by
  have hn : 0 ≤ r.mHeight * r.mPitch := by omega
  obtain ⟨d0, hd0, hd0l⟩ := newArray_eq uninit _ hn
  have hm : memcpy d0 0 d 0 (r.mHeight * r.mPitch) = some d := by
    simp only [memcpy]
    rw [if_pos ⟨le_refl _, le_refl _, hn, by omega, by omega⟩]
    have e1 : (r.mHeight * r.mPitch).toNat = d.length := by omega
    have e2 : ((0 : Int) + r.mHeight * r.mPitch).toNat = d0.length := by omega
    rw [e1, e2]
    simp
  simp only [assign, hd0, hd, hm, Option.bind_eq_bind, Option.some_bind]
  cases r
  simp only at hd
  rw [hd]

theorem shrink2_valid (L : TextureImage) (hV : L.Valid) :
    ∃ L' d, shrink L 2 = some L' ∧ L'.Valid ∧ L'.mData = some d ∧
      L'.mWidth = L.mWidth / 2 ∧ L'.mHeight = L.mHeight / 2 ∧
      L'.mBytesPerPixel = L.mBytesPerPixel := by
  obtain ⟨d, hR, hl, _, _⟩ := shrink_spec L 2 hV (by norm_num)
  obtain ⟨hw, hh, hc, _⟩ := hV
  obtain ⟨v1, _⟩ := ctor_valid (L.mWidth / 2) (L.mHeight / 2) L.mBytesPerPixel
    (Int.ediv_nonneg hw (by norm_num)) (Int.ediv_nonneg hh (by norm_num)) hc d hl
  exact ⟨_, d, hR, v1, rfl, rfl, rfl, rfl⟩

theorem shrinkIter_valid (image : TextureImage) (d0 : List Byte) (hV : image.Valid)
    (hd : image.mData = some d0) :
    ∀ i : Nat, ∃ L d, shrinkIter i image = some L ∧ L.Valid ∧ L.mData = some d ∧
      L.mBytesPerPixel = image.mBytesPerPixel := by
  intro i
  induction i with
  | zero => exact ⟨image, d0, rfl, hV, hd, rfl⟩
  | succ n ih =>
    obtain ⟨L, d, hL, hLV, _, hb⟩ := ih
    obtain ⟨L', d', hs, hV', hd', _, _, hb'⟩ := shrink2_valid L hLV
    exact ⟨L', d', by simp only [shrinkIter, hL, Option.some_bind, hs], hV', hd',
      hb'.trans hb⟩

theorem shrinkIter_pow (image : TextureImage) (n : Nat) (hV : image.Valid)
    (hw : image.mWidth = 2 ^ n) (hh : image.mHeight = 2 ^ n) :
    ∀ i : Nat, i ≤ n → ∃ L, shrinkIter i image = some L ∧ L.Valid ∧
      L.mWidth = 2 ^ (n - i) ∧ L.mHeight = 2 ^ (n - i) := by
  intro i
  induction i with
  | zero => intro _; exact ⟨image, rfl, hV, hw, hh⟩
  | succ k ih =>
    intro hk
    obtain ⟨L, hL, hLV, hLw, hLh⟩ := ih (by omega)
    obtain ⟨L', d', hs, hV', _, hw', hh', _⟩ := shrink2_valid L hLV
    have e : (2 : Int) ^ (n - k) / 2 = 2 ^ (n - (k + 1)) := by
      have : n - k = (n - (k + 1)) + 1 := by omega
      rw [this, pow_succ]
      exact Int.mul_ediv_cancel _ (by norm_num)
    refine ⟨L', by simp only [shrinkIter, hL, Option.some_bind, hs], hV', ?_, ?_⟩
    · rw [hw', hLw, e]
    · rw [hh', hLh, e]

end TextureImage

theorem mipLevel_of (image : TextureImage) (format : TextureFormat) (i : Nat)
    (L : TextureImage) (hL : TextureImage.shrinkIter i image = some L) :
    mipLevel image format i =
      { level := i, format := format, width := L.mWidth, height := L.mHeight,
        srcFormat := if image.mBytesPerPixel = 4 then TextureFormat.TextureFormatRGBA
          else TextureFormat.TextureFormatRGB,
        data := L.mData } := by
  simp only [mipLevel, hL, Option.getD_some]

theorem Build2DMipmaps_spec (image : TextureImage) (format : TextureFormat) (level : Int)
    (uninit : Nat → Byte) (gl : List TexImage2D) (d0 : List Byte) (hV : image.Valid)
    (hd : image.mData = some d0)
    (hb : image.mBytesPerPixel = 3 ∨ image.mBytesPerPixel = 4) :
    Build2DMipmaps image format level uninit gl
      = some (gl ++ (List.range (level + 1).toNat).map (mipLevel image format)) := by
  have hA : Assert (image.mBytesPerPixel == 3 || image.mBytesPerPixel == 4) = some () := by
    rcases hb with h | h <;> simp [Assert, h]
  have hlen0 : (d0.length : Int) = image.mHeight * image.mPitch := by
    have := hV.2.2.2.2.1
    simpa [TextureImage.bytes, hd] using this
  obtain ⟨st, hst, hP⟩ := forLoop_inv (level + 1)
    (fun i (st : TextureImage × List TexImage2D) =>
      (st.1.shrink 2).bind fun t => (st.1.assign t uninit).bind fun curr =>
        some (curr, st.2 ++ [TexImage2D.mk i format st.1.mWidth st.1.mHeight
          (if image.mBytesPerPixel = 4 then TextureFormat.TextureFormatRGBA
            else TextureFormat.TextureFormatRGB) st.1.mData]))
    (fun m st => TextureImage.shrinkIter m.toNat image = some st.1 ∧
      st.2 = gl ++ (List.range m.toNat).map (mipLevel image format))
    (image, gl) ⟨rfl, by simp⟩
    (fun j st hj0 _ hPj => by
      obtain ⟨hL, hgl⟩ := hPj
      obtain ⟨L, d, hL', hLV, _, _⟩ := TextureImage.shrinkIter_valid image d0 hV hd j.toNat
      have hLe : L = st.1 := Option.some.inj (hL'.symm.trans hL)
      subst hLe
      obtain ⟨L', d', hs, hV', hd', _, _, _⟩ := TextureImage.shrink2_valid _ hLV
      have hlen' : (d'.length : Int) = L'.mHeight * L'.mPitch := by
        have := hV'.2.2.2.2.1
        simpa [TextureImage.bytes, hd'] using this
      have ha := TextureImage.assign_eq st.1 L' uninit d' hd' hlen'
      have e : (j + 1).toNat = j.toNat + 1 := by omega
      have ej : ((j.toNat : Nat) : Int) = j := by omega
      refine ⟨(L', st.2 ++ [TexImage2D.mk j format st.1.mWidth st.1.mHeight
          (if image.mBytesPerPixel = 4 then TextureFormat.TextureFormatRGBA
            else TextureFormat.TextureFormatRGB) st.1.mData]), ?_, ?_, ?_⟩
      · dsimp only
        rw [hs, Option.some_bind, ha, Option.some_bind]
      · show TextureImage.shrinkIter (j + 1).toNat image = some L'
        rw [e]
        simp only [TextureImage.shrinkIter, hL, Option.some_bind, hs]
      · show st.2 ++ _ = gl ++ (List.range (j + 1).toNat).map (mipLevel image format)
        rw [e, List.range_succ, List.map_append, ← List.append_assoc, ← hgl,
          List.map_singleton, mipLevel_of image format j.toNat st.1 hL, ej])
  have ha0 := TextureImage.assign_eq {} image uninit d0 hd hlen0
  have hm : (max (level + 1) 0).toNat = (level + 1).toNat := by omega
  have hP2 : st.2 = gl ++ (List.range (max (level + 1) 0).toNat).map (mipLevel image format) :=
    hP.2
  simp only [Build2DMipmaps, hA, ha0, Option.bind_eq_bind, Option.some_bind]
  rw [hst, Option.some_bind, hP2, hm]


theorem load_spec (image : TextureImage) (uninit : Nat → Byte) (alpha bilinear : Bool)
    (maxLevels level : Int) (d0 : List Byte) (hV : image.Valid) (hd : image.mData = some d0)
    (hb : image.mBytesPerPixel = 3 ∨ image.mBytesPerPixel = 4)
    (hl : (if maxLevels < 0 then (TextureImage.ilog2 image.mWidth).map Int.ofNat
      else some maxLevels) = some level) :
    Texture.load image uninit alpha bilinear maxLevels
      = some ((List.range (level + 1).toNat).map (mipLevel image
          (if alpha then TextureFormat.TextureFormatRGBA
            else TextureFormat.TextureFormatRGB))) := by
  have hA : Assert (image.mBytesPerPixel == 3 || image.mBytesPerPixel == 4) = some () := by
    rcases hb with h | h <;> simp [Assert, h]
  have hne : ¬ image.mData = none := by rw [hd]; exact fun h => Option.noConfusion h
  simp only [Texture.load]
  rw [if_neg hne]
  simp only [hA, Option.bind_eq_bind, Option.some_bind]
  by_cases hm : maxLevels < 0
  · rw [if_pos hm] at hl ⊢
    rw [hl, Option.some_bind, Build2DMipmaps_spec image _ level uninit [] d0 hV hd hb,
      List.nil_append]
  · rw [if_neg hm] at hl ⊢
    rw [Option.some.inj hl, Build2DMipmaps_spec image _ level uninit [] d0 hV hd hb,
      List.nil_append]

/-- C14. Mip pyramid with automatic level count: for every `n` and every `2^n × 2^n` buffer of
the data model with 3 or 4 bytes per pixel, `Texture::load` with `maxLevels < 0` makes exactly
`n + 1` calls of `glTexImage2D`; the call number `i` (from 0) has level `i`, width and height
`2^(n - i)` and the data of the buffer obtained by applying `shrink(2)` `i` times. -/
theorem load_auto_levels (image : TextureImage) (uninit : Nat → Byte) (alpha bilinear : Bool)
    (maxLevels : Int) (n : Nat) (hV : image.Valid) (hw : image.mWidth = 2 ^ n)
    (hh : image.mHeight = 2 ^ n)
    (hb : image.mBytesPerPixel = 3 ∨ image.mBytesPerPixel = 4) (hm : maxLevels < 0) :
    ∃ gl, Texture.load image uninit alpha bilinear maxLevels = some gl ∧
      gl.length = n + 1 ∧
      ∀ i : Nat, i ≤ n → ∃ L, TextureImage.shrinkIter i image = some L ∧
        gl[i]? = some
          { level := i,
            format := if alpha then TextureFormat.TextureFormatRGBA
              else TextureFormat.TextureFormatRGB,
            width := 2 ^ (n - i), height := 2 ^ (n - i),
            srcFormat := if image.mBytesPerPixel = 4 then TextureFormat.TextureFormatRGBA
              else TextureFormat.TextureFormatRGB,
            data := L.mData } := by
  have hpos : (0 : Int) < 2 ^ n := by positivity
  obtain ⟨d0, hd⟩ : ∃ d0, image.mData = some d0 := by
    cases h : image.mData with
    | none => have := (hV.2.2.2.2.2 h).1; omega
    | some d => exact ⟨d, rfl⟩
  have hl : (if maxLevels < 0 then (TextureImage.ilog2 image.mWidth).map Int.ofNat
      else some maxLevels) = some (n : Int) := by
    rw [if_pos hm, hw, TextureImage.ilog2_pow]; rfl
  have e1 : ((n : Int) + 1).toNat = n + 1 := by omega
  refine ⟨_, load_spec image uninit alpha bilinear maxLevels n d0 hV hd hb hl, ?_, ?_⟩
  · rw [e1, List.length_map, List.length_range]
  · intro i hi
    obtain ⟨L, hL, _, hLw, hLh⟩ := TextureImage.shrinkIter_pow image n hV hw hh i hi
    refine ⟨L, hL, ?_⟩
    rw [e1, List.getElem?_map, List.getElem?_range (by omega), Option.map_some',
      mipLevel_of image _ i L hL, hLw, hLh]

/-- Instance of C14: a 4 × 4 image uploads exactly 3 levels with widths 4, 2, 1. -/
theorem load_auto_levels_witness :
    TextureImage.ramp4x4.Valid ∧ (-1 : Int) < 0 ∧
      ∃ gl, Texture.load TextureImage.ramp4x4 (fun _ => 0) false true (-1) = some gl ∧
        gl.length = 3 ∧ gl.map (fun u => (u.level, u.width, u.height))
          = [(0, 4, 4), (1, 2, 2), (2, 1, 1)] := by
  refine ⟨by decide, by decide, ?_⟩
  obtain ⟨gl, h1, h2, h3⟩ := load_auto_levels TextureImage.ramp4x4 (fun _ => 0) false true
    (-1) 2 (by decide) (by decide) (by decide) (Or.inl rfl) (by decide)
  refine ⟨gl, h1, h2, ?_⟩
  obtain ⟨L0, _, g0⟩ := h3 0 (by decide)
  obtain ⟨L1, _, g1⟩ := h3 1 (by decide)
  obtain ⟨L2, _, g2⟩ := h3 2 (by decide)
  match gl, h2, g0, g1, g2 with
  | [a, b, c], _, g0, g1, g2 =>
    simp only [List.getElem?_cons_zero, List.getElem?_cons_succ, Option.some.injEq] at g0 g1 g2
    subst g0 g1 g2
    rfl

/-- C15, as stated, fails: `Texture::load` of a 4 × 4 image without a `maxLevels` argument makes
one call of `glTexImage2D`, for level 0, although `floor(log2(width))` is 2. -/
theorem load_default_one_level :
    TextureImage.ilog2 TextureImage.ramp4x4.mWidth = some 2 ∧
      ∃ gl, Texture.load TextureImage.ramp4x4 (fun _ => 0) = some gl ∧ gl.length = 1 ∧
        gl.map (fun u => u.level) = [0] := by
  refine ⟨by decide, _, load_spec TextureImage.ramp4x4 (fun _ => 0) false true 0 0 _
    (by decide) rfl (Or.inl rfl) rfl, rfl, rfl⟩

/-- C15, amended: when the caller does not supply `maxLevels` to `Texture::load`, it is 0: for
every buffer of the data model with an array and 3 or 4 bytes per pixel exactly one level is
uploaded, level 0, the image itself.  (The last level is `floor(log2(width))` when the caller
passes a negative `maxLevels`.) -/
theorem load_default_levels (image : TextureImage) (uninit : Nat → Byte)
    (alpha bilinear : Bool) (d0 : List Byte) (hV : image.Valid) (hd : image.mData = some d0)
    (hb : image.mBytesPerPixel = 3 ∨ image.mBytesPerPixel = 4) :
    Texture.load image uninit alpha bilinear = some
      [{ level := 0,
         format := if alpha then TextureFormat.TextureFormatRGBA
           else TextureFormat.TextureFormatRGB,
         width := image.mWidth, height := image.mHeight,
         srcFormat := if image.mBytesPerPixel = 4 then TextureFormat.TextureFormatRGBA
           else TextureFormat.TextureFormatRGB,
         data := image.mData }] := by
  rw [load_spec image uninit alpha bilinear 0 0 d0 hV hd hb rfl]
  have e : ((0 : Int) + 1).toNat = 1 := by decide
  rw [e]
  simp only [List.range_succ, List.range_zero, List.nil_append, List.map_singleton]
  rw [mipLevel_of image _ 0 image rfl]
  rfl

/-- Instance of C15 (amended): the default load of `ramp4x4`. -/
theorem load_default_levels_witness :
    TextureImage.ramp4x4.Valid ∧
      (Texture.load TextureImage.ramp4x4 (fun _ => 0)).map List.length = some 1 := by
  refine ⟨by decide, ?_⟩
  rw [load_default_levels TextureImage.ramp4x4 (fun _ => 0) false true _ (by decide) rfl
    (Or.inl rfl)]
  rfl

namespace TextureImage

/-! ## C16: move construction -/

/-- C16 at a failing input: after move-constructing a buffer from `rgb2x2`, the new buffer is
the former `rgb2x2`, but the source still has width 2, height 2 and 3 bytes per pixel, so its
`empty()` is false, while its array is null: it no longer has `height * pitch` bytes. -/
theorem move_source_not_empty :
    (moveCtor rgb2x2).1 = rgb2x2 ∧ (moveCtor rgb2x2).2.empty = false ∧
      (moveCtor rgb2x2).2.mData = none ∧ ¬ (moveCtor rgb2x2).2.Valid := by
  decide

/-- The move constructor in general: the new buffer has the former width, height, bytes per
pixel, pitch and array of `r`; `r` keeps its width, height, bytes per pixel and pitch and gets
a null array, so that `r.empty()` is what it was before the move. -/
theorem move_transfer (r : TextureImage) :
    (moveCtor r).1 = r ∧ (moveCtor r).2.mData = none ∧
      (moveCtor r).2.mWidth = r.mWidth ∧ (moveCtor r).2.mHeight = r.mHeight ∧
      (moveCtor r).2.mBytesPerPixel = r.mBytesPerPixel ∧ (moveCtor r).2.mPitch = r.mPitch ∧
      (moveCtor r).2.empty = r.empty :=
  ⟨rfl, rfl, rfl, rfl, rfl, rfl, rfl⟩

/-! ## C17: `resample` of an empty source -/

/-- C19. `copyFrom` with mismatched formats is a no-op: when the bytes per pixel of `S` and
`D` differ, the call returns `D` itself, every field and every byte unchanged. -/
theorem copyFrom_mismatch (D S : TextureImage) (x y srcx srcy : Int)
    (h : S.mBytesPerPixel ≠ D.mBytesPerPixel) : copyFrom D S x y srcx srcy = some D := by
  rw [copyFrom_eq, if_pos h]

/-- Instance of C19: an RGBA source and an RGB destination. -/
theorem copyFrom_mismatch_witness :
    ({ rgb2x2 with mBytesPerPixel := 4 } : TextureImage).mBytesPerPixel
        ≠ zero2x2.mBytesPerPixel ∧
      copyFrom zero2x2 { rgb2x2 with mBytesPerPixel := 4 } 0 0 0 0 = some zero2x2 :=
  ⟨by decide, copyFrom_mismatch zero2x2 _ 0 0 0 0 (by decide)⟩


/-! ## Bounds of `shrink` -/

theorem readByte_nil (idx : Int) : readByte (some []) idx = readByte none idx := by
  simp [readByte]

theorem shrink_null (B : TextureImage) (s : Int) (hd : B.mData = none) :
    shrink B s = shrink { B with mData := some [] } s := by
  simp only [shrink, hd, readByte_nil]

theorem valid_of_layout (B : TextureImage) (hw : 0 ≤ B.mWidth) (hh : 0 ≤ B.mHeight)
    (hc : 0 ≤ B.mBytesPerPixel) (hL : B.Layout) (d : List Byte) (hd : B.mData = some d) :
    B.Valid := by
  obtain ⟨_, hP, _, hlen⟩ := hL
  exact ⟨hw, hh, hc, hP, hlen, fun h => by rw [hd] at h; cases h⟩

/-- C21. Bounds safety of `shrink`: for every buffer `B` with non-negative width, height and
bytes per pixel that satisfies the layout invariant, and every scale `s ≥ 1` (whether or not
it divides the sizes of `B`, and also when it exceeds them), `shrink(s)` returns; for all loop
indices `i < height / s`, `j < width / s`, `k < bytesPerPixel`, `i1 < s`, `j1 < s` the source
row `i*s + i1` is below `B.height`, the source column `j*s + j1` is below `B.width`, the index
`(i*s + i1) * pitch + (j*s + j1) * bytesPerPixel + k` lies in the array of `B` and is read,
and the index `i * pitch + j * bytesPerPixel + k` written lies in the array of the result. -/
theorem shrink_in_bounds (B : TextureImage) (s : Int) (hw : 0 ≤ B.mWidth) (hh : 0 ≤ B.mHeight)
    (hc : 0 ≤ B.mBytesPerPixel) (hL : B.Layout) (hs : 1 ≤ s) :
    ∃ R, shrink B s = some R ∧
      ∀ i j k, 0 ≤ i → i < Int.tdiv B.mHeight s → 0 ≤ j → j < Int.tdiv B.mWidth s → 0 ≤ k →
        k < B.mBytesPerPixel →
        (∀ i1 j1 : Int, 0 ≤ i1 → i1 < s → 0 ≤ j1 → j1 < s →
          (0 ≤ i * s + i1 ∧ i * s + i1 < B.mHeight) ∧
          (0 ≤ j * s + j1 ∧ j * s + j1 < B.mWidth) ∧
          0 ≤ (i * s + i1) * B.mPitch + (j * s + j1) * B.mBytesPerPixel + k ∧
          (i * s + i1) * B.mPitch + (j * s + j1) * B.mBytesPerPixel + k < B.bytes.length ∧
          ∃ v, readByte B.mData
            ((i * s + i1) * B.mPitch + (j * s + j1) * B.mBytesPerPixel + k) = some v) ∧
        0 ≤ i * R.mPitch + j * R.mBytesPerPixel + k ∧
        i * R.mPitch + j * R.mBytesPerPixel + k < R.bytes.length := by
  have hP : B.mWidth * B.mBytesPerPixel ≤ B.mPitch := hL.2.1
  have hlen : (B.bytes.length : Int) = B.mHeight * B.mPitch := hL.2.2.2
  have hws : 0 ≤ B.mWidth / s := Int.ediv_nonneg hw (by omega)
  have hwc : 0 ≤ B.mWidth / s * B.mBytesPerPixel := mul_nonneg hws hc
  obtain ⟨a1, _, _⟩ := alignedPitch_four _ hwc
  have hret : ∃ d, shrink B s = some
        { mWidth := B.mWidth / s, mHeight := B.mHeight / s,
          mBytesPerPixel := B.mBytesPerPixel,
          mPitch := alignedPitch (B.mWidth / s * B.mBytesPerPixel), mData := some d } ∧
      (d.length : Int) = B.mHeight / s * alignedPitch (B.mWidth / s * B.mBytesPerPixel) := by
    cases hd : B.mData with
    | none =>
      have hV : ({ B with mData := some [] } : TextureImage).Valid := by
        refine ⟨hw, hh, hc, hP, ?_, fun h => by cases h⟩
        rw [← hlen]; simp only [bytes, hd, Option.getD_some, Option.getD_none]
      obtain ⟨d, h1, h2, _⟩ := shrink_spec _ s hV hs
      exact ⟨d, by rw [shrink_null B s hd]; exact h1, h2⟩
    | some d0 =>
      obtain ⟨d, h1, h2, _⟩ := shrink_spec B s (valid_of_layout B hw hh hc hL d0 hd) hs
      exact ⟨d, h1, h2⟩
  obtain ⟨d, hR, hl⟩ := hret
  refine ⟨_, hR, ?_⟩
  intro i j k hi0 hi hj0 hj hk0 hk
  rw [Int.tdiv_eq_ediv hh (by omega)] at hi
  rw [Int.tdiv_eq_ediv hw (by omega)] at hj
  constructor
  · intro i1 j1 b1 b2 b3 b4
    obtain ⟨r0, r1⟩ := shrink_src_bound _ s i i1 hs hi0 hi b1 b2
    obtain ⟨c0, c1⟩ := shrink_src_bound _ s j j1 hs hj0 hj b3 b4
    obtain ⟨_, _, e3, e4⟩ := addr_bounds B.mHeight B.mWidth B.mBytesPerPixel B.mPitch
      (i * s + i1) (j * s + j1) k r0 r1 c0 c1 hk0 hk hP
    refine ⟨⟨r0, r1⟩, ⟨c0, c1⟩, e3, by omega, ?_⟩
    cases hd : B.mData with
    | none =>
      rw [bytes, hd] at hlen
      simp only [Option.getD_none, List.length_nil, Nat.cast_zero] at hlen
      omega
    | some l =>
      rw [bytes, hd] at hlen
      simp only [Option.getD_some] at hlen
      exact readByte_some l _ e3 (by omega)
  · obtain ⟨_, _, e3, e4⟩ := addr_bounds (B.mHeight / s) (B.mWidth / s) B.mBytesPerPixel
      (alignedPitch (B.mWidth / s * B.mBytesPerPixel)) i j k hi0 hi hj0 hj hk0 hk a1
    refine ⟨e3, ?_⟩
    simp only [bytes, Option.getD_some]
    omega

/-- Instance of C21: a 4 × 4 buffer with a scale that does not divide its sizes, a 2 × 2
buffer with a scale larger than its sizes, and the buffer without an array. -/
theorem shrink_in_bounds_witness :
    (0 ≤ ramp4x4.mWidth ∧ 0 ≤ ramp4x4.mHeight ∧ 0 ≤ ramp4x4.mBytesPerPixel) ∧
      ramp4x4.Layout ∧ rgb2x2.Layout ∧ ({} : TextureImage).Layout ∧ (1 : Int) ≤ 3 ∧
      (∃ R, shrink ramp4x4 3 = some R ∧
        (0 * 3 + 2) * ramp4x4.mPitch + (0 * 3 + 2) * ramp4x4.mBytesPerPixel + 2
          < ramp4x4.bytes.length ∧
        0 * R.mPitch + 0 * R.mBytesPerPixel + 2 < R.bytes.length) ∧
      (∃ R, shrink rgb2x2 3 = some R) ∧ (∃ R, shrink ({} : TextureImage) 1 = some R) := by
  refine ⟨by decide, by decide, by decide, by decide, by decide, ?_, ?_, ?_⟩
  · obtain ⟨R, h1, h2⟩ := shrink_in_bounds ramp4x4 3 (by decide) (by decide) (by decide)
      (by decide) (by decide)
    obtain ⟨h3, _, h4⟩ := h2 0 0 2 (by decide) (by decide) (by decide) (by decide) (by decide)
      (by decide)
    exact ⟨R, h1, (h3 2 2 (by decide) (by decide) (by decide) (by decide)).2.2.2.1, h4⟩
  · obtain ⟨R, h1, _⟩ := shrink_in_bounds rgb2x2 3 (by decide) (by decide) (by decide)
      (by decide) (by decide)
    exact ⟨R, h1⟩
  · obtain ⟨R, h1, _⟩ := shrink_in_bounds ({} : TextureImage) 1 (by decide) (by decide)
      (by decide) (by decide) (by decide)
    exact ⟨R, h1⟩

end TextureImage

/-! ## `int` arithmetic without overflow -/

theorem forLoopAux_preserve {σ : Type} (body : Int → σ → Option σ) (P : σ → Prop)
    (hb : ∀ j s s', P s → body j s = some s' → P s') :
    ∀ (fuel : Nat) (i : Int) (s s' : σ), P s → forLoopAux body fuel i s = some s' → P s' := by
  intro fuel
  induction fuel with
  | zero =>
    intro i s s' h hl
    simp only [forLoopAux, Option.some.injEq] at hl
    rw [← hl]; exact h
  | succ n ih =>
    intro i s s' h hl
    simp only [forLoopAux] at hl
    cases hbs : body i s with
    | none => rw [hbs] at hl; cases hl
    | some s1 =>
      rw [hbs] at hl
      exact ih (i + 1) s1 s' (hb i s s1 h hbs) hl

theorem forLoop_preserve {σ : Type} (n : Int) (body : Int → σ → Option σ) (P : σ → Prop)
    (hb : ∀ j s s', P s → body j s = some s' → P s') (s s' : σ) (h : P s)
    (hl : forLoop n body s = some s') : P s' :=
  forLoopAux_preserve body P hb n.toNat 0 s s' h hl

theorem writeByte_length (d d' : List Byte) (idx : Int) (v : Byte)
    (h : writeByte d idx v = some d') : d'.length = d.length := by
  unfold writeByte at h
  split at h
  · simp only [Option.some.injEq] at h
    rw [← h, List.length_set]
  · cases h

namespace TextureImage

theorem alignedPitchInt_eq (p a : Int) (hp : 0 ≤ p) (ha : 1 ≤ a)
    (hr : Int.tmod p a = 0 ∨ p + a ≤ INT_MAX) : alignedPitchInt p a = alignedPitch p a := by
  unfold alignedPitchInt alignedPitch
  by_cases h : Int.tmod p a = 0
  · rw [if_pos h, if_pos h]
  · rw [if_neg h, if_neg h]
    have hr' : p + a ≤ INT_MAX := hr.resolve_left h
    have e := Int.tmod_eq_emod hp (by omega : 0 ≤ a)
    have m0 := Int.emod_nonneg p (by omega : a ≠ 0)
    have m1 := Int.emod_lt_of_pos p (by omega : 0 < a)
    rw [e, wrapInt_of_range (p + a) (by omega) hr', wrapInt_of_range _ (by omega) (by omega)]

theorem alignedPitchInt_fixed (r a : Int) (hr : 0 ≤ r) (ha : 1 ≤ a) (hd : a ∣ r) :
    Int.tmod r a = 0 ∧ alignedPitchInt r a = r := by
  have e : Int.tmod r a = 0 := by
    rw [Int.tmod_eq_emod hr (by omega)]; exact Int.emod_eq_zero_of_dvd hd
  exact ⟨e, by unfold alignedPitchInt; rw [if_pos e]⟩

theorem fits_pitch (w h c : Int) (hw : 0 ≤ w) (hc : 0 ≤ c) (hF : Fits w h c) :
    alignedPitchInt (wrapInt (w * c)) = alignedPitch (w * c) ∧
      alignedPitch (w * c) ≤ INT_MAX := by
  obtain ⟨_, _, _, f3, _⟩ := hF
  have hwc : 0 ≤ w * c := mul_nonneg hw hc
  obtain ⟨a1, a2, _⟩ := alignedPitch_four _ hwc
  have e := Int.tmod_eq_emod hwc (by norm_num : (0 : Int) ≤ 4)
  unfold INT_MAX at f3
  rw [wrapInt_of_range _ (by omega) (by unfold INT_MAX; omega)]
  refine ⟨alignedPitchInt_eq _ 4 hwc (by norm_num) ?_, by unfold INT_MAX; omega⟩
  rw [e]; unfold INT_MAX; omega

theorem ctorInt_eq (w h c : Int) (hw : 0 ≤ w) (hh : 0 ≤ h) (hc : 0 ≤ c) (hF : Fits w h c) :
    ctorInt w h c = ctor w h c := by
  obtain ⟨e1, _⟩ := fits_pitch w h c hw hc hF
  obtain ⟨_, _, _, _, f4⟩ := hF
  have hwc : 0 ≤ w * c := mul_nonneg hw hc
  obtain ⟨a1, _, _⟩ := alignedPitch_four _ hwc
  have hsz : 0 ≤ h * alignedPitch (w * c) := mul_nonneg hh (by omega)
  unfold ctorInt ctor
  simp only [e1, wrapInt_of_range _ (by omega : -2147483648 ≤ h * alignedPitch (w * c)) f4]

theorem fits_intSized (w h c : Int) (hw : 0 ≤ w) (hh : 0 ≤ h) (hc : 0 ≤ c) (hF : Fits w h c)
    (d : List Byte) :
    IntSized { mWidth := w, mHeight := h, mBytesPerPixel := c,
               mPitch := alignedPitch (w * c), mData := some d } := by
  obtain ⟨_, e2⟩ := fits_pitch w h c hw hc hF
  obtain ⟨f1, f2, f3, _, f5⟩ := hF
  obtain ⟨a1, _, _⟩ := alignedPitch_four _ (mul_nonneg hw hc)
  have hwc : 0 ≤ w * c := mul_nonneg hw hc
  have hsz : 0 ≤ h * alignedPitch (w * c) := mul_nonneg hh (by omega)
  unfold IntSized InInt
  dsimp only
  exact ⟨⟨by omega, f1⟩, ⟨by omega, f2⟩, ⟨by omega, f3⟩, ⟨by omega, e2⟩, ⟨by omega, f5⟩⟩

theorem clipAxisInt_eq (p srcp : Int) (h1 : InInt (srcp - p)) (h2 : InInt (p - srcp)) :
    clipAxisInt p srcp = clipAxis p srcp := by
  unfold clipAxisInt clipAxis
  dsimp only
  by_cases hp : p < 0
  · simp only [if_pos hp, wrapInt_of_range _ h1.1 h1.2]
    have e : (0 : Int) - (srcp - p) = p - srcp := by ring
    rw [e, wrapInt_of_range _ h2.1 h2.2]
  · simp only [if_neg hp, wrapInt_of_range _ h2.1 h2.2]

theorem clipAxis_le (p srcp : Int) (hp : InInt p) (hs : InInt srcp) (h1 : InInt (srcp - p))
    (h2 : InInt (p - srcp)) :
    (clipAxis p srcp).1 ≤ INT_MAX ∧ (clipAxis p srcp).2 ≤ INT_MAX := by
  obtain ⟨_, p1⟩ := hp
  obtain ⟨_, s1⟩ := hs
  obtain ⟨_, a1⟩ := h1
  obtain ⟨_, b1⟩ := h2
  have hI : (0 : Int) ≤ INT_MAX := by unfold INT_MAX; norm_num
  unfold clipAxis
  dsimp only
  by_cases hp : p < 0
  · simp only [if_pos hp]
    by_cases hs : srcp - p < 0
    · rw [if_pos hs]; constructor <;> dsimp only <;> omega
    · rw [if_neg hs]; constructor <;> dsimp only <;> omega
  · simp only [if_neg hp]
    by_cases hs : srcp < 0
    · rw [if_pos hs]; constructor <;> dsimp only <;> omega
    · rw [if_neg hs]; constructor <;> dsimp only <;> omega

theorem copyFromInt_unfold (D S : TextureImage) (x y srcx srcy : Int) :
    copyFromInt D S x y srcx srcy =
      if S.mBytesPerPixel ≠ D.mBytesPerPixel then some D
      else if min (wrapInt (D.mWidth - (clipAxisInt x srcx).1))
            (wrapInt (S.mWidth - (clipAxisInt x srcx).2)) ≤ 0 ∨
          min (wrapInt (D.mHeight - (clipAxisInt y srcy).1))
            (wrapInt (S.mHeight - (clipAxisInt y srcy).2)) ≤ 0 then
        some D
      else
        match D.mData, S.mData with
        | some d, some s =>
          match forLoop (min (wrapInt (D.mHeight - (clipAxisInt y srcy).1))
              (wrapInt (S.mHeight - (clipAxisInt y srcy).2)))
            (fun i d =>
              memcpy d ((i + (clipAxisInt y srcy).1) * D.mPitch
                  + (clipAxisInt x srcx).1 * D.mBytesPerPixel)
                s ((i + (clipAxisInt y srcy).2) * S.mPitch
                  + (clipAxisInt x srcx).2 * S.mBytesPerPixel)
                (min (wrapInt (D.mWidth - (clipAxisInt x srcx).1))
                    (wrapInt (S.mWidth - (clipAxisInt x srcx).2))
                  * D.mBytesPerPixel)) d with
          | some d' => some { D with mData := some d' }
          | none => none
        | _, _ => none := by
  unfold copyFromInt clipAxisInt
  by_cases hx : x < 0 <;> by_cases hy : y < 0 <;> simp only [hx, hy, if_true, if_false]

theorem copyFromInt_eq (D S : TextureImage) (x y srcx srcy : Int) (hD : D.Valid)
    (hS : S.Valid) (hDi : D.IntSized) (hSi : S.IntSized)
    (hx : InInt x) (hy : InInt y) (hsx : InInt srcx) (hsy : InInt srcy)
    (hx1 : InInt (srcx - x)) (hx2 : InInt (x - srcx))
    (hy1 : InInt (srcy - y)) (hy2 : InInt (y - srcy)) :
    copyFromInt D S x y srcx srcy = copyFrom D S x y srcx srcy := by
  obtain ⟨dw, dh, _⟩ := hD
  obtain ⟨sw, sh, _⟩ := hS
  obtain ⟨⟨_, dw1⟩, ⟨_, dh1⟩, _⟩ := hDi
  obtain ⟨⟨_, sw1⟩, ⟨_, sh1⟩, _⟩ := hSi
  obtain ⟨cx1, cx2⟩ := clipAxis_nonneg x srcx
  obtain ⟨cy1, cy2⟩ := clipAxis_nonneg y srcy
  obtain ⟨ux1, ux2⟩ := clipAxis_le x srcx hx hsx hx1 hx2
  obtain ⟨uy1, uy2⟩ := clipAxis_le y srcy hy hsy hy1 hy2
  rw [copyFromInt_unfold, copyFrom_eq, clipAxisInt_eq x srcx hx1 hx2,
    clipAxisInt_eq y srcy hy1 hy2]
  unfold INT_MAX at *
  rw [wrapInt_of_range (D.mWidth - (clipAxis x srcx).1) (by omega) (by unfold INT_MAX; omega),
    wrapInt_of_range (S.mWidth - (clipAxis x srcx).2) (by omega) (by unfold INT_MAX; omega),
    wrapInt_of_range (D.mHeight - (clipAxis y srcy).1) (by omega) (by unfold INT_MAX; omega),
    wrapInt_of_range (S.mHeight - (clipAxis y srcy).2) (by omega) (by unfold INT_MAX; omega)]

theorem resample_layout (sample : Int → Int → Int → Int) (B : TextureImage) (w h : Int)
    (hc : 0 ≤ B.mBytesPerPixel) (hw : 0 ≤ w) (hh : 0 ≤ h) (R : TextureImage)
    (hR : resample sample B w h = some R) :
    ∃ d, R = { mWidth := w, mHeight := h, mBytesPerPixel := B.mBytesPerPixel,
               mPitch := alignedPitch (w * B.mBytesPerPixel), mData := some d } ∧
      (d.length : Int) = h * alignedPitch (w * B.mBytesPerPixel) := by
  have hwc : 0 ≤ w * B.mBytesPerPixel := mul_nonneg hw hc
  obtain ⟨a1, _, _⟩ := alignedPitch_four _ hwc
  have hsz : 0 ≤ h * alignedPitch (w * B.mBytesPerPixel) := mul_nonneg hh (by omega)
  simp only [resample, ctor_eq w h _ hh hwc, Option.bind_eq_bind, Option.some_bind] at hR
  rw [Option.bind_eq_some] at hR
  obtain ⟨d, hd, hRd⟩ := hR
  simp only [Option.some.injEq] at hRd
  refine ⟨d, hRd.symm, ?_⟩
  have hlen := forLoop_preserve h _
    (fun l : List Byte => (l.length : Int) = h * alignedPitch (w * B.mBytesPerPixel))
    (fun i l l' hl hb => forLoop_preserve w _
      (fun l : List Byte => (l.length : Int) = h * alignedPitch (w * B.mBytesPerPixel))
      (fun j l l' hl hb => forLoop_preserve B.mBytesPerPixel _
        (fun l : List Byte => (l.length : Int) = h * alignedPitch (w * B.mBytesPerPixel))
        (fun k l l' hl hb => by
          show (l'.length : Int) = _
          by_cases he : B.empty = true
          · rw [if_pos he] at hb
            rw [writeByte_length _ _ _ _ hb]; exact hl
          · rw [if_neg he, Option.bind_eq_some] at hb
            obtain ⟨v, _, hv⟩ := hb
            rw [writeByte_length _ _ _ _ hv]; exact hl) l l' hl hb) l l' hl hb)
    _ d (by simp only [List.length_replicate]; omega) hd
  exact hlen


/-! ## C8: `alignedPitch` -/

/-- C8, as stated, fails: for `rawPitch = 2147483647` and `align = 4` the sum
`pitch + align` overflows and `alignedPitch` returns `-2147483648`, which is below
`rawPitch`; no `int` is a multiple of 4 that is at least `2147483647`. -/
theorem alignedPitch_overflow :
    (0 : Int) ≤ 2147483647 ∧ (1 : Int) ≤ 4 ∧ InInt 2147483647 ∧
      alignedPitchInt 2147483647 4 = -2147483648 ∧
      ¬ (2147483647 ≤ alignedPitchInt 2147483647 4) := by
  decide

/-- C8, amended: for `rawPitch ≥ 0` and `align ≥ 1` such that `rawPitch` is a multiple of
`align` or `rawPitch + align ≤ INT_MAX`, the result `r` of `alignedPitch` is a multiple of
`align`, is at least `rawPitch`, and is at most every multiple of `align` that is at least
`rawPitch`; it satisfies `r % align == 0` and `alignedPitch(r, align) == r`, for `align = 4`
in particular. -/
theorem alignedPitch_least_multiple (p a : Int) (hp : 0 ≤ p) (ha : 1 ≤ a)
    (hr : Int.tmod p a = 0 ∨ p + a ≤ INT_MAX) :
    a ∣ alignedPitchInt p a ∧ p ≤ alignedPitchInt p a ∧
      (∀ m, a ∣ m → p ≤ m → alignedPitchInt p a ≤ m) ∧
      Int.tmod (alignedPitchInt p a) a = 0 ∧
      alignedPitchInt (alignedPitchInt p a) a = alignedPitchInt p a := by
  rw [alignedPitchInt_eq p a hp ha hr]
  obtain ⟨h1, h2, h3⟩ := alignedPitch_dvd p a hp ha
  obtain ⟨h4, h5⟩ := alignedPitchInt_fixed (alignedPitch p a) a (by omega) ha h1
  exact ⟨h1, h2, h3, h4, h5⟩

/-- Instance of C8 (amended): a raw pitch of 6 bytes is aligned to 8, and the largest raw
pitch that can be aligned to 4 is 2147483644. -/
theorem alignedPitch_least_multiple_witness :
    (0 : Int) ≤ 6 ∧ (1 : Int) ≤ 4 ∧ (Int.tmod 6 4 = 0 ∨ (6 : Int) + 4 ≤ INT_MAX) ∧
      alignedPitchInt 6 4 = 8 ∧ (4 : Int) ∣ alignedPitchInt 6 4 ∧
      alignedPitchInt (alignedPitchInt 6 4) 4 = alignedPitchInt 6 4 ∧
      alignedPitchInt (alignedPitchInt 2147483644 4) 4 = alignedPitchInt 2147483644 4 :=
  ⟨by decide, by decide, by decide, by decide,
    (alignedPitch_least_multiple 6 4 (by decide) (by decide) (by decide)).1,
    (alignedPitch_least_multiple 6 4 (by decide) (by decide) (by decide)).2.2.2.2,
    (alignedPitch_least_multiple 2147483644 4 (by decide) (by decide) (by decide)).2.2.2.2⟩

/-! ## C1: the postcondition of `copyFrom` -/

/-- C20, as stated, fails: for `x = INT_MAX` and `srcx = INT_MIN` the subtraction
`x -= srcx` overflows to `-1`, the block has width 2, and the copy of the first row starts
three bytes before the array of `D`. -/
theorem copyFrom_overflow_out_of_bounds :
    zero2x2.Valid ∧ rgb2x2.Valid ∧ rgb2x2.mBytesPerPixel = zero2x2.mBytesPerPixel ∧
      clipAxisInt 2147483647 (-2147483648) = (-1, 0) ∧
      min (wrapInt (zero2x2.mWidth - -1)) (wrapInt (rgb2x2.mWidth - 0)) = 2 ∧
      (0 + 0) * zero2x2.mPitch + -1 * zero2x2.mBytesPerPixel = -3 ∧
      memcpy zero2x2.bytes ((0 + 0) * zero2x2.mPitch + -1 * zero2x2.mBytesPerPixel)
        rgb2x2.bytes ((0 + 0) * rgb2x2.mPitch + 0 * rgb2x2.mBytesPerPixel)
        (2 * zero2x2.mBytesPerPixel) = none ∧
      copyFromInt zero2x2 rgb2x2 2147483647 0 (-2147483648) 0 = none := by
  decide

/-- C20, amended: for buffers `D` and `S` of the data model with equal bytes per pixel and
`int` offsets `x`, `y`, `srcx`, `srcy` whose differences `srcx - x`, `x - srcx`, `srcy - y`
and `y - srcy` are within `int`, the call returns; when rows are copied (`w > 0` and `h > 0`
for the clipped block), the range written by every row copy lies within the array of `D` and
the range read lies within the array of `S`. -/
theorem copyFrom_in_bounds (D S : TextureImage) (x y srcx srcy : Int) (hD : D.Valid)
    (hS : S.Valid) (hDi : D.IntSized) (hSi : S.IntSized)
    (hbpp : S.mBytesPerPixel = D.mBytesPerPixel)
    (hx : InInt x) (hy : InInt y) (hsx : InInt srcx) (hsy : InInt srcy)
    (hx1 : InInt (srcx - x)) (hx2 : InInt (x - srcx))
    (hy1 : InInt (srcy - y)) (hy2 : InInt (y - srcy))
    (x' sx' y' sy' w h : Int) (hcx : clipAxis x srcx = (x', sx'))
    (hcy : clipAxis y srcy = (y', sy'))
    (hw : w = min (D.mWidth - x') (S.mWidth - sx'))
    (hh : h = min (D.mHeight - y') (S.mHeight - sy')) :
    (∃ D', copyFromInt D S x y srcx srcy = some D') ∧
    clipAxisInt x srcx = (x', sx') ∧ clipAxisInt y srcy = (y', sy') ∧
    (0 < w → 0 < h → ∀ i, 0 ≤ i → i < h →
      (0 ≤ (i + y') * D.mPitch + x' * D.mBytesPerPixel ∧
        (i + y') * D.mPitch + x' * D.mBytesPerPixel + w * D.mBytesPerPixel
          ≤ D.mHeight * D.mPitch ∧
        D.mHeight * D.mPitch = D.bytes.length) ∧
      (0 ≤ (i + sy') * S.mPitch + sx' * S.mBytesPerPixel ∧
        (i + sy') * S.mPitch + sx' * S.mBytesPerPixel + w * D.mBytesPerPixel
          ≤ S.mHeight * S.mPitch ∧
        S.mHeight * S.mPitch = S.bytes.length)) := by
  rw [copyFromInt_eq D S x y srcx srcy hD hS hDi hSi hx hy hsx hsy hx1 hx2 hy1 hy2,
    clipAxisInt_eq x srcx hx1 hx2, clipAxisInt_eq y srcy hy1 hy2]
  obtain ⟨h1, h2⟩ := copyFrom_spec D S x y srcx srcy hD hS hbpp x' sx' y' sy' w h hcx hcy hw hh
  have nx := clipAxis_nonneg x srcx
  have ny := clipAxis_nonneg y srcy
  rw [hcx] at nx; rw [hcy] at ny
  dsimp only at nx ny
  refine ⟨?_, hcx, hcy, ?_⟩
  · by_cases hwh : w ≤ 0 ∨ h ≤ 0
    · exact ⟨D, h1 hwh⟩
    · rw [not_or, not_le, not_le] at hwh
      obtain ⟨d', hc, _⟩ := h2 hwh.1 hwh.2
      exact ⟨_, hc⟩
  · intro hw0 hh0 i hi0 hi
    obtain ⟨_, _, dc, dP, dlen, _⟩ := hD
    obtain ⟨_, _, _, sP, slen, _⟩ := hS
    rw [hbpp] at sP ⊢
    obtain ⟨r1, r2, r3, r4, r5⟩ := row_bounds D.mHeight D.mWidth D.mBytesPerPixel D.mPitch
      (i + y') x' w (by omega) (by omega) nx.1 (by omega) (by omega) dc dP
    obtain ⟨q1, q2, q3, q4, q5⟩ := row_bounds S.mHeight S.mWidth D.mBytesPerPixel S.mPitch
      (i + sy') sx' w (by omega) (by omega) nx.2 (by omega) (by omega) dc sP
    exact ⟨⟨by omega, by omega, dlen.symm⟩, ⟨by omega, by omega, slen.symm⟩⟩

/-- Instance of C20 (amended): offsets far outside both images and a negative offset. -/
theorem copyFrom_in_bounds_witness :
    zero2x2.Valid ∧ rgb2x2.Valid ∧ zero2x2.IntSized ∧ rgb2x2.IntSized ∧
      InInt 1000 ∧ InInt (-1000) ∧ InInt (-7) ∧ InInt 3 ∧
      InInt (-7 - 1000) ∧ InInt (1000 - -7) ∧ InInt (3 - -1000) ∧ InInt (-1000 - 3) ∧
      (∃ D', copyFromInt zero2x2 rgb2x2 1000 (-1000) (-7) 3 = some D') ∧
      (∃ D', copyFromInt zero2x2 rgb2x2 (-1) 0 0 0 = some D') :=
  ⟨by decide, by decide, by decide, by decide, by decide, by decide, by decide, by decide,
    by decide, by decide, by decide, by decide,
    (copyFrom_in_bounds zero2x2 rgb2x2 1000 (-1000) (-7) 3 (by decide) (by decide) (by decide)
      (by decide) rfl (by decide) (by decide) (by decide) (by decide) (by decide) (by decide)
      (by decide) (by decide)
      1007 0 0 1003 (-1005) (-1001) (by decide) (by decide) (by decide) (by decide)).1,
    (copyFrom_in_bounds zero2x2 rgb2x2 (-1) 0 0 0 (by decide) (by decide) (by decide)
      (by decide) rfl (by decide) (by decide) (by decide) (by decide) (by decide) (by decide)
      (by decide) (by decide)
      0 1 0 0 1 2 (by decide) (by decide) (by decide) (by decide)).1⟩


/-! ## C9: the layout of produced buffers -/

/-- C9, as stated, fails in three places.  `rgb2x2` satisfies the invariant and 0 is a
non-negative `bytesPerPixel` argument, but `convert(0)` writes three bytes per pixel into an
array of length 0 and returns no buffer.  The constructor with `width = 2147483647`,
`height = 0` and `bytesPerPixel = 1` overflows in `alignedPitch` and returns a buffer whose
pitch `-2147483648` is below `width * bytesPerPixel`.  `copyFrom` with `y = INT_MAX` and
`srcy = INT_MIN` overflows in `y -= srcy` and copies to a row before the array of its
destination. -/
theorem layout_invariant_fails :
    (rgb2x2.Valid ∧ rgb2x2.Layout ∧ (0 : Int) ≤ 0 ∧
      ¬ ∃ R, convert rgb2x2 0 = some R ∧ R.Layout) ∧
    ((0 : Int) ≤ 2147483647 ∧ (0 : Int) ≤ 0 ∧ (0 : Int) ≤ 1 ∧
      ∃ R, ctorInt 2147483647 0 1 = some R ∧ R.mPitch = -2147483648 ∧
        ¬ (R.mPitch ≥ R.mWidth * R.mBytesPerPixel) ∧ ¬ R.Layout) ∧
    (zero2x2.Valid ∧ zero2x2.Layout ∧ rgb2x2.Valid ∧
      clipAxisInt 2147483647 (-2147483648) = (-1, 0) ∧
      ¬ ∃ D', copyFromInt zero2x2 rgb2x2 0 2147483647 0 (-2147483648) = some D' ∧
        D'.Layout) := by
  refine ⟨⟨by decide, by decide, by decide, ?_⟩,
    ⟨by decide, by decide, by decide, _, rfl, by decide, by decide, by decide⟩,
    ⟨by decide, by decide, by decide, by decide, ?_⟩⟩
  · have h : convert rgb2x2 0 = none := by decide
    rw [h]
    rintro ⟨R, hR, _⟩
    exact Option.noConfusion hR
  · have h : copyFromInt zero2x2 rgb2x2 0 2147483647 0 (-2147483648) = none := by decide
    rw [h]
    rintro ⟨R, hR, _⟩
    exact Option.noConfusion hR

/-- C9, amended: for non-negative `width`, `height` and `bytesPerPixel` and `scale ≥ 1` such
that the width, the height, the bytes per pixel, `width * bytesPerPixel + 3` and
`height * pitch` of the produced buffer are at most `INT_MAX`, the constructor returns a
zero-filled buffer, `enlarge`, `shrink` and `convert` (for a source and a target of at least
3 bytes per pixel) applied to a buffer of the data model return a buffer, and so does
`resample` when the coordinates it samples lie inside the source; each buffer returned by
them, and every buffer returned by `resample` whatever it samples, has
`pitch == alignedPitch(width * bytesPerPixel)`, `pitch >= width * bytesPerPixel`,
`pitch % 4 == 0` and an array of length `height * pitch`.  `copyFrom` keeps these properties
of its destination for `int` offsets whose differences `srcx - x`, `x - srcx`, `srcy - y` and
`y - srcy` are within `int`. -/
theorem layout_invariant_preserved (w h c s t x y srcx srcy : Int)
    (sample : Int → Int → Int → Int) (B D S : TextureImage)
    (hw : 0 ≤ w) (hh : 0 ≤ h) (hc : 0 ≤ c) (hs : 1 ≤ s) (hB : B.Valid) (hD : D.Valid)
    (hDL : D.Layout) (hS : S.Valid) :
    (Fits w h c → ∃ R, ctorInt w h c = some R ∧ R.Valid ∧ R.Layout ∧ R.IntSized ∧
      R.mData = some (List.replicate (h * R.mPitch).toNat 0)) ∧
    (3 ≤ B.mBytesPerPixel → 3 ≤ t → Fits B.mWidth B.mHeight t →
      ∃ R, convert B t = some R ∧ R.Valid ∧ R.Layout ∧ R.IntSized) ∧
    (Fits (B.mWidth * s) (B.mHeight * s) B.mBytesPerPixel →
      ∃ R, enlarge B s = some R ∧ R.Valid ∧ R.Layout ∧ R.IntSized) ∧
    (Fits (B.mWidth / s) (B.mHeight / s) B.mBytesPerPixel →
      ∃ R, shrink B s = some R ∧ R.Valid ∧ R.Layout ∧ R.IntSized) ∧
    (Fits w h B.mBytesPerPixel →
      (∀ R, resample sample B w h = some R → R.Valid ∧ R.Layout ∧ R.IntSized) ∧
      ((B.empty = false → ∀ i n m, 0 ≤ i → i < n → 0 < m →
          0 ≤ sample i n m ∧ sample i n m < m) →
        ∃ R, resample sample B w h = some R)) ∧
    (D.IntSized → S.IntSized → InInt x → InInt y → InInt srcx → InInt srcy →
      InInt (srcx - x) → InInt (x - srcx) → InInt (srcy - y) → InInt (y - srcy) →
      ∃ D', copyFromInt D S x y srcx srcy = some D' ∧ D'.Valid ∧ D'.Layout) := by
  have hB' := hB
  obtain ⟨bw, bh, bc, _, _, _⟩ := hB'
  refine ⟨?_, ?_, ?_, ?_, ?_, ?_⟩
  · intro hF
    have hwc : 0 ≤ w * c := mul_nonneg hw hc
    have hsz : 0 ≤ h * alignedPitch (w * c) :=
      mul_nonneg hh (by have := (alignedPitch_four _ hwc).1; omega)
    obtain ⟨v1, v2⟩ := ctor_valid w h c hw hh hc
      (List.replicate (h * alignedPitch (w * c)).toNat 0)
      (by simp only [List.length_replicate]; omega)
    exact ⟨_, (ctorInt_eq w h c hw hh hc hF).trans (ctor_eq w h c hh hwc), v1, v2,
      fits_intSized w h c hw hh hc hF _, rfl⟩
  · intro hb ht hF
    obtain ⟨d, hR, hl, _, _⟩ := convert_spec B t hB hb ht
    obtain ⟨v1, v2⟩ := ctor_valid B.mWidth B.mHeight t bw bh (by omega) d hl
    exact ⟨_, hR, v1, v2, fits_intSized _ _ _ bw bh (by omega) hF d⟩
  · intro hF
    obtain ⟨d, hR, hl, _, _⟩ := enlarge_spec B s hB hs
    obtain ⟨v1, v2⟩ := ctor_valid (B.mWidth * s) (B.mHeight * s) B.mBytesPerPixel
      (mul_nonneg bw (by omega)) (mul_nonneg bh (by omega)) bc d hl
    exact ⟨_, hR, v1, v2, fits_intSized _ _ _ (mul_nonneg bw (by omega))
      (mul_nonneg bh (by omega)) bc hF d⟩
  · intro hF
    obtain ⟨d, hR, hl, _, _⟩ := shrink_spec B s hB hs
    obtain ⟨v1, v2⟩ := ctor_valid (B.mWidth / s) (B.mHeight / s) B.mBytesPerPixel
      (Int.ediv_nonneg bw (by omega)) (Int.ediv_nonneg bh (by omega)) bc d hl
    exact ⟨_, hR, v1, v2, fits_intSized _ _ _ (Int.ediv_nonneg bw (by omega))
      (Int.ediv_nonneg bh (by omega)) bc hF d⟩
  · intro hF
    constructor
    · intro R hR
      obtain ⟨d, e, hl⟩ := resample_layout sample B w h bc hw hh R hR
      obtain ⟨v1, v2⟩ := ctor_valid w h B.mBytesPerPixel hw hh bc d hl
      rw [e]
      exact ⟨v1, v2, fits_intSized _ _ _ hw hh bc hF d⟩
    · intro hsample
      obtain ⟨d, hR, _⟩ := resample_spec sample B w h hB hw hh hsample
      exact ⟨_, hR⟩
  · intro hDi hSi hx hy hsx hsy hx1 hx2 hy1 hy2
    rw [copyFromInt_eq D S x y srcx srcy hD hS hDi hSi hx hy hsx hsy hx1 hx2 hy1 hy2]
    exact copyFrom_layout D S x y srcx srcy hD hDL hS

/-- Instance of C9 (amended): buffers produced from `rgb2x2`. -/
theorem layout_invariant_preserved_witness :
    rgb2x2.Valid ∧ zero2x2.Valid ∧ zero2x2.Layout ∧ Fits 3 2 3 ∧ Fits 2 2 4 ∧ Fits 4 4 3 ∧
      Fits 1 1 3 ∧ zero2x2.IntSized ∧ rgb2x2.IntSized ∧
      (∃ R, ctorInt 3 2 3 = some R ∧ R.Layout) ∧
      (∃ R, convert rgb2x2 4 = some R ∧ R.Layout) ∧
      (∃ R, enlarge rgb2x2 2 = some R ∧ R.Layout) ∧
      (∃ R, shrink rgb2x2 2 = some R ∧ R.Layout) ∧
      (∃ R, resample (fun i n m => i * m / n) rgb2x2 3 2 = some R ∧ R.Layout) ∧
      (∃ R, copyFromInt zero2x2 rgb2x2 1 (-1) 0 0 = some R ∧ R.Layout) := by
  obtain ⟨h1, h2, h3, h4, h5, h6⟩ :=
    layout_invariant_preserved 3 2 3 2 4 1 (-1) 0 0 (fun i n m => i * m / n)
      rgb2x2 zero2x2 rgb2x2 (by decide) (by decide) (by decide) (by decide) (by decide)
      (by decide) (by decide) (by decide)
  obtain ⟨R1, a1, _, a2, _⟩ := h1 (by decide)
  obtain ⟨R2, b1, _, b2, _⟩ := h2 (by decide) (by decide) (by decide)
  obtain ⟨R3, c1, _, c2, _⟩ := h3 (by decide)
  obtain ⟨R4, d1, _, d2, _⟩ := h4 (by decide)
  obtain ⟨e0, e3⟩ := h5 (by decide)
  obtain ⟨R5, e1⟩ := e3 (fun _ i n m hi0 hi hm =>
    ⟨Int.ediv_nonneg (mul_nonneg hi0 (by omega)) (by omega),
      Int.ediv_lt_of_lt_mul (by omega) (by
        rw [mul_comm m n]; exact mul_lt_mul_of_pos_right hi hm)⟩)
  obtain ⟨R6, f1, _, f2⟩ := h6 (by decide) (by decide) (by decide) (by decide) (by decide)
    (by decide) (by decide) (by decide) (by decide) (by decide)
  exact ⟨by decide, by decide, by decide, by decide, by decide, by decide, by decide,
    by decide, by decide, ⟨R1, a1, a2⟩, ⟨R2, b1, b2⟩, ⟨R3, c1, c2⟩,
    ⟨R4, d1, d2⟩, ⟨R5, e1, (e0 R5 e1).2.1⟩, ⟨R6, f1, f2⟩⟩

end TextureImage
end Framework
